import Mathlib

/-!
Verification of the ChatBot retrieval-augmented-generation pipeline.

The definitions below are a shallow embedding of the JavaScript sources
`server.mjs` and `scripts/embed.mjs`: strings are `String`/`List Char`,
JavaScript numbers used as machine floats are idealized as `ℝ` where the
code does real arithmetic (cosine similarity) and as `ℚ`/`Nat` where the
code only ever manipulates small exact values (the hinglish score,
timestamps).  Fallible backend calls are modeled as `Except` values handed
to the request handler.  `Math.random()`-driven choices and the wall clock
are modeled as explicit `rand`/`hour`/`now` parameters.
-/

/- ===================== JavaScript string primitives ===================== -/

/-- ASCII case folding: the effect of JavaScript `toLowerCase()` on the
`A`-`Z` range.  All characters the pipeline keeps after the
`[^a-z0-9ऀ-ॿ\s]` strip are ASCII or Devanagari (caseless), so
this models `toLowerCase` faithfully for every retained character. -/
def jsToLower (c : Char) : Char :=
  if 'A' ≤ c ∧ c ≤ 'Z' then Char.ofNat (c.toNat + 32) else c

/-- The character class `\s` of JavaScript regular expressions
(ECMA-262 WhiteSpace ∪ LineTerminator). -/
def isJsWs (c : Char) : Bool :=
  let n := c.toNat
  n = 0x20 || n = 0x09 || n = 0x0a || n = 0x0b || n = 0x0c || n = 0x0d ||
  n = 0xa0 || n = 0x1680 || (0x2000 ≤ n && n ≤ 0x200a) || n = 0x2028 ||
  n = 0x2029 || n = 0x202f || n = 0x205f || n = 0x3000 || n = 0xfeff

/-- JavaScript `String.prototype.trim()` on a character list: strip the
`\s` class from both ends. -/
def jsTrimList (l : List Char) : List Char :=
  ((l.dropWhile isJsWs).reverse.dropWhile isJsWs).reverse

/-- JavaScript `trim()` on a `String`. -/
def jsTrimStr (s : String) : String :=
  ⟨jsTrimList s.data⟩

theorem jsTrimList_length_le (l : List Char) : (jsTrimList l).length ≤ l.length := by
  unfold jsTrimList
  calc ((l.dropWhile isJsWs).reverse.dropWhile isJsWs).reverse.length
      = ((l.dropWhile isJsWs).reverse.dropWhile isJsWs).length := by
        exact List.length_reverse _
    _ ≤ (l.dropWhile isJsWs).reverse.length :=
        ((l.dropWhile isJsWs).reverse.dropWhile_sublist isJsWs).length_le
    _ = (l.dropWhile isJsWs).length := List.length_reverse _
    _ ≤ l.length := (l.dropWhile_sublist isJsWs).length_le

/- ===================== Corpus chunker (scripts/embed.mjs) ===================== -/

/-- The sliding-window loop of `chunkText` in `scripts/embed.mjs`, producing
the `(start, end)` window spans.  The JavaScript loop is

    let start = 0;
    while (start < text.length) {
      const end = Math.min(start + size, text.length);
      const chunk = text.slice(start, end).trim();
      if (chunk) chunks.push(chunk);
      if (end === text.length) break;
      start = Math.max(0, end - overlap);
    }

`fuel` bounds the iteration count; `text.length` steps suffice whenever
`overlap < size`, because `start` then advances by at least one per
iteration.  `Nat` subtraction realizes `Math.max(0, end - overlap)`. -/
def chunkSpansAux (len size overlap : Nat) : Nat → Nat → List (Nat × Nat)
  | 0, _ => []
  | fuel + 1, start =>
    if start < len then
      (start, min (start + size) len) ::
        (if min (start + size) len = len then []
         else chunkSpansAux len size overlap fuel (min (start + size) len - overlap))
    else []

/-- All window spans emitted by the chunking loop, starting from offset 0. -/
def chunkSpans (len size overlap : Nat) : List (Nat × Nat) :=
  chunkSpansAux len size overlap len 0

/-- `chunkText(text, size, overlap)` from `scripts/embed.mjs`: for each
window span, the trimmed slice is emitted unless it is empty after the
trim. -/
def chunkText (text : List Char) (size overlap : Nat) : List (List Char) :=
  (chunkSpans text.length size overlap).filterMap fun se =>
    let c := jsTrimList ((text.drop se.1).take (se.2 - se.1))
    if c = [] then none else some c

theorem chunkSpansAux_shape (len size overlap : Nat) :
    ∀ fuel start, ∀ p ∈ chunkSpansAux len size overlap fuel start,
      p.2 = min (p.1 + size) len ∧ p.1 < len := by
  intro fuel
  induction fuel with
  | zero => intro start p hp; simp [chunkSpansAux] at hp
  | succ f ih =>
    intro start p hp
    by_cases hs : start < len
    · rw [chunkSpansAux, if_pos hs] at hp
      rcases List.mem_cons.mp hp with h | h
      · subst h; exact ⟨rfl, hs⟩
      · by_cases he : min (start + size) len = len
        · rw [if_pos he] at h; simp at h
        · rw [if_neg he] at h; exact ih _ p h
    · rw [chunkSpansAux, if_neg hs] at hp; simp at hp

theorem chunkSpansAux_head (len size overlap : Nat) :
    ∀ fuel start b, (chunkSpansAux len size overlap fuel start).head? = some b →
      b.1 = start := by
  intro fuel start b hb
  cases fuel with
  | zero => simp [chunkSpansAux] at hb
  | succ f =>
    by_cases hs : start < len
    · rw [chunkSpansAux, if_pos hs] at hb
      simp at hb
      rw [← hb]
    · rw [chunkSpansAux, if_neg hs] at hb; simp at hb

theorem chunkSpansAux_chain (len size overlap : Nat) (hso : overlap < size) :
    ∀ fuel start,
      List.Chain' (fun a b : Nat × Nat => b.1 = a.1 + (size - overlap))
        (chunkSpansAux len size overlap fuel start) := by
  intro fuel
  induction fuel with
  | zero => intro start; simp [chunkSpansAux]
  | succ f ih =>
    intro start
    by_cases hs : start < len
    · rw [chunkSpansAux, if_pos hs]
      by_cases he : min (start + size) len = len
      · rw [if_pos he]; simp
      · rw [if_neg he]
        refine List.chain'_cons'.mpr ⟨?_, ih _⟩
        intro b hb
        have hb1 := chunkSpansAux_head len size overlap f _ b hb
        have hlt : start + size < len := by
          rcases Nat.lt_or_ge (start + size) len with h | h
          · exact h
          · exact absurd (Nat.min_eq_right h) he
        have : min (start + size) len = start + size := Nat.min_eq_left (Nat.le_of_lt hlt)
        rw [this] at hb1
        omega
    · rw [chunkSpansAux, if_neg hs]; simp

theorem chunkSpansAux_cover (len size overlap : Nat) (hso : overlap < size) :
    ∀ fuel start, len - start ≤ fuel →
      ∀ i, start ≤ i → i < len →
        ∃ p ∈ chunkSpansAux len size overlap fuel start, p.1 ≤ i ∧ i < p.2 := by
  intro fuel
  induction fuel with
  | zero => intro start hf i hi1 hi2; omega
  | succ f ih =>
    intro start hf i hi1 hi2
    have hs : start < len := Nat.lt_of_le_of_lt hi1 hi2
    rw [chunkSpansAux, if_pos hs]
    by_cases hie : i < min (start + size) len
    · exact ⟨(start, min (start + size) len), List.mem_cons_self _ _, hi1, hie⟩
    · have he : ¬ min (start + size) len = len := by omega
      rw [if_neg he]
      have hlt : start + size < len := by
        rcases Nat.lt_or_ge (start + size) len with h | h
        · exact h
        · exact absurd (Nat.min_eq_right h) he
      have hmin : min (start + size) len = start + size := Nat.min_eq_left (Nat.le_of_lt hlt)
      rw [hmin] at hie
      rw [hmin]
      obtain ⟨p, hp, hp1, hp2⟩ :=
        ih (start + size - overlap) (by omega) i (by omega) hi2
      exact ⟨p, List.mem_cons_of_mem _ hp, hp1, hp2⟩

theorem chunkSpansAux_lastD (len size overlap : Nat) (hso : overlap < size) :
    ∀ fuel start d, len - start ≤ fuel → start < len →
      ((chunkSpansAux len size overlap fuel start).getLastD d).2 = len := by
  intro fuel
  induction fuel with
  | zero => intro start d hf hs; omega
  | succ f ih =>
    intro start d hf hs
    rw [chunkSpansAux, if_pos hs]
    by_cases he : min (start + size) len = len
    · rw [if_pos he]
      simp [List.getLastD_cons, he]
    · rw [if_neg he]
      rw [List.getLastD_cons]
      have hlt : start + size < len := by
        rcases Nat.lt_or_ge (start + size) len with h | h
        · exact h
        · exact absurd (Nat.min_eq_right h) he
      have hmin : min (start + size) len = start + size := Nat.min_eq_left (Nat.le_of_lt hlt)
      rw [hmin]
      exact ih (start + size - overlap) _ (by omega) (by omega)

theorem chunkSpans_head (len size overlap : Nat) (hl : 0 < len) :
    (chunkSpans len size overlap).head? = some (0, min size len) := by
  unfold chunkSpans
  cases len with
  | zero => omega
  | succ f =>
    rw [chunkSpansAux, if_pos hl]
    simp

/-- C2: for every input text and `chunkSize`/`overlap` with
`0 < overlap < chunkSize`, the chunker emits windows
`text[start : start + chunkSize]` (each window span `(s, e)` satisfies
`e = min (s + chunkSize) len`), consecutive windows advance `start` by
exactly `chunkSize - overlap`, a nonempty text begins at offset 0 and ends
with a final window reaching exactly the end of the text, every emitted
(trimmed) chunk has length at most `chunkSize`, and the union of the window
spans covers every position of the input. -/
theorem claim_C2_chunking (text : List Char) (size overlap : Nat)
    (h1 : 0 < overlap) (h2 : overlap < size) :
    (∀ p ∈ chunkSpans text.length size overlap, p.2 = min (p.1 + size) text.length) ∧
    List.Chain' (fun a b : Nat × Nat => b.1 = a.1 + (size - overlap))
      (chunkSpans text.length size overlap) ∧
    (0 < text.length →
      (chunkSpans text.length size overlap).head? = some (0, min size text.length) ∧
      ((chunkSpans text.length size overlap).getLastD (0, 0)).2 = text.length) ∧
    (∀ c ∈ chunkText text size overlap, c.length ≤ size) ∧
    (∀ i, i < text.length →
      ∃ p ∈ chunkSpans text.length size overlap, p.1 ≤ i ∧ i < p.2) := by
  refine ⟨?_, ?_, ?_, ?_, ?_⟩
  · intro p hp
    exact (chunkSpansAux_shape text.length size overlap text.length 0 p hp).1
  · exact chunkSpansAux_chain text.length size overlap h2 text.length 0
  · intro hl
    refine ⟨chunkSpans_head text.length size overlap hl, ?_⟩
    exact chunkSpansAux_lastD text.length size overlap h2 text.length 0 (0, 0)
      (by omega) hl
  · intro c hc
    obtain ⟨p, hp, hpc⟩ := List.mem_filterMap.mp hc
    have hshape := (chunkSpansAux_shape text.length size overlap text.length 0 p hp).1
    by_cases hnil : jsTrimList ((text.drop p.1).take (p.2 - p.1)) = []
    · simp only [hnil, if_pos] at hpc
      exact absurd hpc (by simp)
    · simp only [if_neg hnil] at hpc
      have : c = jsTrimList ((text.drop p.1).take (p.2 - p.1)) := by
        exact (Option.some.injEq _ _ ▸ hpc).symm
      rw [this]
      calc (jsTrimList ((text.drop p.1).take (p.2 - p.1))).length
          ≤ ((text.drop p.1).take (p.2 - p.1)).length := jsTrimList_length_le _
        _ ≤ p.2 - p.1 := by
            rw [List.length_take]; exact min_le_left _ _
        _ ≤ size := by omega
  · intro i hi
    exact chunkSpansAux_cover text.length size overlap h2 text.length 0 (by omega) i
      (Nat.zero_le i) hi

/-- Witness for C2 at the concrete text `"ab cd"` with `chunkSize = 4`,
`overlap = 2`. -/
theorem claim_C2_chunking_witness :
    0 < 2 ∧ 2 < 4 ∧
    ((∀ p ∈ chunkSpans ("ab cd".data).length 4 2,
        p.2 = min (p.1 + 4) ("ab cd".data).length) ∧
     List.Chain' (fun a b : Nat × Nat => b.1 = a.1 + (4 - 2))
       (chunkSpans ("ab cd".data).length 4 2) ∧
     (0 < ("ab cd".data).length →
       (chunkSpans ("ab cd".data).length 4 2).head? =
         some (0, min 4 ("ab cd".data).length) ∧
       ((chunkSpans ("ab cd".data).length 4 2).getLastD (0, 0)).2 =
         ("ab cd".data).length) ∧
     (∀ c ∈ chunkText "ab cd".data 4 2, c.length ≤ 4) ∧
     (∀ i, i < ("ab cd".data).length →
       ∃ p ∈ chunkSpans ("ab cd".data).length 4 2, p.1 ≤ i ∧ i < p.2)) :=
  ⟨by decide, by decide, claim_C2_chunking "ab cd".data 4 2 (by decide) (by decide)⟩

/- ===================== Text normalizer (cleanForEmbedding) ===================== -/

/-- Characters retained by the strip regex `[^a-z0-9ऀ-ॿ\s]` of
`cleanForEmbedding`: ASCII lower-case letters, ASCII digits, and the
Devanagari block. -/
def isTokenChar (c : Char) : Bool :=
  (0x61 ≤ c.toNat && c.toNat ≤ 0x7a) || (0x30 ≤ c.toNat && c.toNat ≤ 0x39) ||
  (0x900 ≤ c.toNat && c.toNat ≤ 0x97F)

/-- The strip step of `cleanForEmbedding`: every character that is not a
kept token character and not `\s` whitespace is replaced by a space. -/
def stripForEmbedding (l : List Char) : List Char :=
  l.map fun c => if isTokenChar c || isJsWs c then c else ' '

/-- JavaScript `str.split(/\s+/).filter(Boolean)`: the maximal nonempty
runs of non-whitespace characters, accumulated left to right (`acc` holds
the current run, reversed). -/
def splitWsAux : List Char → List Char → List (List Char)
  | [], acc => if acc = [] then [] else [acc.reverse]
  | c :: rest, acc =>
    if isJsWs c then
      (if acc = [] then splitWsAux rest [] else acc.reverse :: splitWsAux rest [])
    else splitWsAux rest (c :: acc)

/-- Whitespace tokenization of a character list. -/
def splitWs (l : List Char) : List (List Char) :=
  splitWsAux l []

/-- The English stopword set of `server.mjs` / `scripts/embed.mjs`. -/
def EN_STOPWORDS : List String :=
  ["a", "about", "above", "after", "again", "against", "all", "am", "an", "and",
   "any", "are", "aren\x27t", "as", "at", "be", "because", "been", "before",
   "being", "below", "between", "both", "but", "by", "can\x27t", "cannot",
   "could", "couldn\x27t", "did", "didn\x27t", "do", "does", "doesn\x27t",
   "doing", "don\x27t", "down", "during", "each", "few", "for", "from",
   "further", "had", "hadn\x27t", "has", "hasn\x27t", "have", "haven\x27t",
   "having", "he", "he\x27d", "he\x27ll", "he\x27s", "her", "here", "here\x27s",
   "hers", "herself", "him", "himself", "his", "how", "how\x27s", "i", "i\x27d",
   "i\x27ll", "i\x27m", "i\x27ve", "if", "in", "into", "is", "isn\x27t", "it",
   "it\x27s", "its", "itself", "let\x27s", "me", "more", "most", "mustn\x27t",
   "my", "myself", "no", "nor", "not", "of", "off", "on", "once", "only", "or",
   "other", "ought", "our", "ours", "ourselves", "out", "over", "own", "same",
   "shan\x27t", "she", "she\x27d", "she\x27ll", "she\x27s", "should",
   "shouldn\x27t", "so", "some", "such", "than", "that", "that\x27s", "the",
   "their", "theirs", "them", "themselves", "then", "there", "there\x27s",
   "these", "they", "they\x27d", "they\x27ll", "they\x27re", "they\x27ve",
   "this", "those", "through", "to", "too", "under", "until", "up", "very",
   "was", "wasn\x27t", "we", "we\x27d", "we\x27ll", "we\x27re", "we\x27ve",
   "were", "weren\x27t", "what", "what\x27s", "when", "when\x27s", "where",
   "where\x27s", "which", "while", "who", "who\x27s", "whom", "why", "why\x27s",
   "with", "won\x27t", "would", "wouldn\x27t", "you", "you\x27d", "you\x27ll",
   "you\x27re", "you\x27ve", "your", "yours", "yourself", "yourselves"]

/-- The romanized-Hindi stopword set of the source (duplicates kept; the
JavaScript `Set` only dedups, which does not change membership). -/
def HINGLISH_STOPWORDS : List String :=
  ["hai", "hain", "ho", "hona", "hoga", "hogi", "honge", "hote", "hota", "thi",
   "tha", "the", "kya", "kyu", "kyun", "kyunki", "kisi", "kis", "kaun", "konsa",
   "kab", "kaha", "kahaan", "kaise", "nahi", "nahin", "na", "mat", "bas",
   "sirf", "bhi", "hi", "to", "tho", "ab", "abhi", "phir", "fir", "ye", "yeh",
   "vo", "woh", "aisa", "waisa", "jab", "tab", "agar", "lekin", "magar", "par",
   "per", "ya", "aur", "ka", "ki", "ke", "mein", "me", "mai", "mei", "mujhe",
   "mujhko", "hume", "humko", "tumhe", "aap", "ap", "hum", "tum", "se", "ko",
   "tak", "pe", "par", "liye", "ke", "liye", "kr", "kar", "karo", "karna",
   "karke", "krke", "krna", "ho gya", "hogaya", "chahiye", "chahie", "krdo",
   "kardo", "de", "do", "lo", "le", "dena", "lena"]

/-- The Devanagari-Hindi stopword set of the source. -/
def HINDI_STOPWORDS : List String :=
  ["है", "हैं", "हो", "होना", "होगा", "होगी", "होंगे", "होते", "होता", "था", "थी", "थे",
   "क्या", "क्यों", "क्योंकि", "किसी", "कौन", "कौनसा", "कब", "कहाँ", "कैसे",
   "नहीं", "मत", "बस", "सिर्फ", "भी", "ही", "तो", "अब", "अभी", "फिर",
   "यह", "ये", "वह", "वो", "जब", "तब", "अगर", "लेकिन", "मगर", "या", "और",
   "का", "की", "के", "में", "मे", "मुझे", "हमें", "तुम्हें", "आप", "हम", "तुम",
   "से", "को", "तक", "पर", "लिए", "चाहिए", "कर", "करो", "करना", "करके", "कर दें", "कर लो"]

/-- The protected domain tokens that always survive cleaning. -/
def PROTECTED_TOKENS : List String :=
  ["hca", "hari", "chand", "anand", "anil", "anand", "duke", "kansai",
   "special", "highlead", "merrow", "megasew", "amf", "reece", "delhi",
   "india", "solution", "solutions", "automation", "garment", "leather",
   "mattress"]

/-- The per-token keep/drop decision of `cleanForEmbedding`: protected
tokens are always kept; otherwise any stopword-set hit drops the token. -/
def keepToken (t : List Char) : Bool :=
  if (⟨t⟩ : String) ∈ PROTECTED_TOKENS then true
  else if (⟨t⟩ : String) ∈ EN_STOPWORDS then false
  else if (⟨t⟩ : String) ∈ HINGLISH_STOPWORDS then false
  else if (⟨t⟩ : String) ∈ HINDI_STOPWORDS then false
  else true

/-- JavaScript `arr.join(" ")` on token lists. -/
def joinSpace : List (List Char) → List Char
  | [] => []
  | [t] => t
  | t :: ts => t ++ ' ' :: joinSpace ts

/-- The token list of the lower-cased, stripped input: the
`stripped.split(/\s+/).filter(Boolean)` step of `cleanForEmbedding`. -/
def cleanTokens (s : String) : List (List Char) :=
  splitWs (stripForEmbedding (s.data.map jsToLower))

/-- `cleanForEmbedding` from `server.mjs` / `scripts/embed.mjs`: falsy
guard on the input, lower-case, strip, tokenize, keep/drop tokens, re-join
with single spaces, final `trim()`. -/
def cleanForEmbedding (s : String) : String :=
  if s = "" then ""
  else ⟨jsTrimList (joinSpace ((cleanTokens s).filter keepToken))⟩

theorem splitWsAux_mem_no_ws :
    ∀ (l acc : List Char), (∀ c ∈ acc, isJsWs c = false) →
      ∀ t ∈ splitWsAux l acc, t ≠ [] ∧ ∀ c ∈ t, isJsWs c = false := by
  intro l
  induction l with
  | nil =>
    intro acc hacc t ht
    by_cases h : acc = []
    · rw [splitWsAux, if_pos h] at ht
      simp at ht
    · rw [splitWsAux, if_neg h] at ht
      simp only [List.mem_singleton] at ht
      subst ht
      refine ⟨by simpa using h, ?_⟩
      intro c hc
      exact hacc c (List.mem_reverse.mp hc)
  | cons a rest ih =>
    intro acc hacc t ht
    rw [splitWsAux] at ht
    by_cases hw : isJsWs a
    · rw [if_pos hw] at ht
      by_cases h : acc = []
      · rw [if_pos h] at ht
        exact ih [] (by simp) t ht
      · rw [if_neg h] at ht
        rcases List.mem_cons.mp ht with h1 | h1
        · subst h1
          refine ⟨by simpa using h, ?_⟩
          intro c hc
          exact hacc c (List.mem_reverse.mp hc)
        · exact ih [] (by simp) t h1
    · rw [if_neg hw] at ht
      refine ih (a :: acc) ?_ t ht
      intro c hc
      rcases List.mem_cons.mp hc with h1 | h1
      · subst h1; simpa using hw
      · exact hacc c h1

theorem splitWsAux_subset :
    ∀ (l acc : List Char) (t : List Char) (c : Char),
      t ∈ splitWsAux l acc → c ∈ t → c ∈ l ∨ c ∈ acc := by
  intro l
  induction l with
  | nil =>
    intro acc t c ht hc
    by_cases h : acc = []
    · rw [splitWsAux, if_pos h] at ht; simp at ht
    · rw [splitWsAux, if_neg h] at ht
      simp only [List.mem_singleton] at ht
      subst ht
      exact Or.inr (List.mem_reverse.mp hc)
  | cons a rest ih =>
    intro acc t c ht hc
    rw [splitWsAux] at ht
    by_cases hw : isJsWs a
    · rw [if_pos hw] at ht
      by_cases h : acc = []
      · rw [if_pos h] at ht
        rcases ih [] t c ht hc with h1 | h1
        · exact Or.inl (List.mem_cons_of_mem _ h1)
        · simp at h1
      · rw [if_neg h] at ht
        rcases List.mem_cons.mp ht with h1 | h1
        · subst h1; exact Or.inr (List.mem_reverse.mp hc)
        · rcases ih [] t c h1 hc with h2 | h2
          · exact Or.inl (List.mem_cons_of_mem _ h2)
          · simp at h2
    · rw [if_neg hw] at ht
      rcases ih (a :: acc) t c ht hc with h1 | h1
      · exact Or.inl (List.mem_cons_of_mem _ h1)
      · rcases List.mem_cons.mp h1 with h2 | h2
        · subst h2; exact Or.inl (List.mem_cons_self _ _)
        · exact Or.inr h2

theorem splitWsAux_chunk :
    ∀ (t rest acc : List Char), (∀ c ∈ t, isJsWs c = false) →
      splitWsAux (t ++ rest) acc = splitWsAux rest (t.reverse ++ acc) := by
  intro t
  induction t with
  | nil => intro rest acc _; rfl
  | cons a t' ih =>
    intro rest acc h
    have ha : isJsWs a = false := h a (List.mem_cons_self _ _)
    show splitWsAux (a :: (t' ++ rest)) acc = _
    rw [splitWsAux, if_neg (by simp [ha])]
    rw [ih rest (a :: acc) (fun c hc => h c (List.mem_cons_of_mem _ hc))]
    simp

theorem splitWs_joinSpace :
    ∀ ts : List (List Char), (∀ t ∈ ts, t ≠ []) →
      (∀ t ∈ ts, ∀ c ∈ t, isJsWs c = false) →
      splitWs (joinSpace ts) = ts := by
  intro ts
  induction ts with
  | nil => intro _ _; rfl
  | cons t ts ih =>
    intro hne hws
    have ht_ne : t ≠ [] := hne t (List.mem_cons_self _ _)
    have ht_ws : ∀ c ∈ t, isJsWs c = false := hws t (List.mem_cons_self _ _)
    cases ts with
    | nil =>
      show splitWs (joinSpace [t]) = [t]
      have : joinSpace [t] = t := rfl
      rw [this]
      unfold splitWs
      rw [show t = t ++ ([] : List Char) by simp]
      rw [splitWsAux_chunk t [] [] (by simpa using ht_ws)]
      rw [splitWsAux, if_neg (by simpa using ht_ne)]
      simp
    | cons t2 ts2 =>
      show splitWs (t ++ ' ' :: joinSpace (t2 :: ts2)) = t :: t2 :: ts2
      unfold splitWs
      rw [splitWsAux_chunk t (' ' :: joinSpace (t2 :: ts2)) [] ht_ws]
      rw [splitWsAux, if_pos (by decide), if_neg (by simpa using ht_ne)]
      simp only [List.reverse_append, List.reverse_reverse, List.reverse_nil,
        List.nil_append, List.append_nil]
      have := ih (fun u hu => hne u (List.mem_cons_of_mem _ hu))
        (fun u hu => hws u (List.mem_cons_of_mem _ hu))
      unfold splitWs at this
      rw [this]

theorem joinSpace_ne_nil :
    ∀ ts : List (List Char), ts ≠ [] → (∀ t ∈ ts, t ≠ []) → joinSpace ts ≠ [] := by
  intro ts
  cases ts with
  | nil => intro h _; exact absurd rfl h
  | cons t ts =>
    intro _ hne
    cases ts with
    | nil => exact hne t (List.mem_cons_self _ _)
    | cons t2 ts2 =>
      show t ++ ' ' :: joinSpace (t2 :: ts2) ≠ []
      simp

theorem joinSpace_head_no_ws :
    ∀ ts : List (List Char), (∀ t ∈ ts, t ≠ []) →
      (∀ t ∈ ts, ∀ c ∈ t, isJsWs c = false) →
      ∀ c, (joinSpace ts).head? = some c → isJsWs c = false := by
  intro ts
  cases ts with
  | nil => intro _ _ c hc; simp [joinSpace] at hc
  | cons t ts =>
    intro hne hws c hc
    have ht_ne : t ≠ [] := hne t (List.mem_cons_self _ _)
    have ht_ws : ∀ x ∈ t, isJsWs x = false := hws t (List.mem_cons_self _ _)
    cases ts with
    | nil =>
      have : joinSpace [t] = t := rfl
      rw [this] at hc
      exact ht_ws c (List.mem_of_mem_head? hc)
    | cons t2 ts2 =>
      have : joinSpace (t :: t2 :: ts2) = t ++ ' ' :: joinSpace (t2 :: ts2) := rfl
      rw [this, List.head?_append_of_ne_nil t ht_ne] at hc
      exact ht_ws c (List.mem_of_mem_head? hc)

theorem joinSpace_getLast_no_ws :
    ∀ ts : List (List Char), (∀ t ∈ ts, t ≠ []) →
      (∀ t ∈ ts, ∀ c ∈ t, isJsWs c = false) →
      ∀ c, (joinSpace ts).getLast? = some c → isJsWs c = false := by
  intro ts
  induction ts with
  | nil => intro _ _ c hc; simp [joinSpace] at hc
  | cons t ts ih =>
    intro hne hws c hc
    have ht_ne : t ≠ [] := hne t (List.mem_cons_self _ _)
    have ht_ws : ∀ x ∈ t, isJsWs x = false := hws t (List.mem_cons_self _ _)
    cases ts with
    | nil =>
      have : joinSpace [t] = t := rfl
      rw [this] at hc
      exact ht_ws c (List.mem_of_mem_getLast? hc)
    | cons t2 ts2 =>
      have hJ : joinSpace (t2 :: ts2) ≠ [] :=
        joinSpace_ne_nil _ (by simp) (fun u hu => hne u (List.mem_cons_of_mem _ hu))
      have he : joinSpace (t :: t2 :: ts2) = t ++ ' ' :: joinSpace (t2 :: ts2) := rfl
      rw [he, List.getLast?_append_of_ne_nil t (by simp)] at hc
      rw [show (' ' :: joinSpace (t2 :: ts2)) = [' '] ++ joinSpace (t2 :: ts2) by rfl] at hc
      rw [List.getLast?_append_of_ne_nil [' '] hJ] at hc
      exact ih (fun u hu => hne u (List.mem_cons_of_mem _ hu))
        (fun u hu => hws u (List.mem_cons_of_mem _ hu)) c hc

theorem jsTrimList_eq_self (l : List Char)
    (h1 : ∀ c, l.head? = some c → isJsWs c = false)
    (h2 : ∀ c, l.getLast? = some c → isJsWs c = false) :
    jsTrimList l = l := by
  have e1 : l.dropWhile isJsWs = l := by
    rcases l with _ | ⟨a, l⟩
    · rfl
    · rw [List.dropWhile_cons, if_neg]
      simp [h1 a rfl]
  rw [jsTrimList, e1]
  have e2 : l.reverse.dropWhile isJsWs = l.reverse := by
    rcases hr : l.reverse with _ | ⟨a, lr⟩
    · rfl
    · rw [List.dropWhile_cons, if_neg]
      have ha : l.getLast? = some a := by
        rw [← List.head?_reverse, hr]; rfl
      simp [h2 a ha]
  rw [e2, List.reverse_reverse]

theorem stripForEmbedding_chars (l : List Char) :
    ∀ c ∈ stripForEmbedding l, (isTokenChar c || isJsWs c) = true := by
  intro c hc
  rcases List.mem_map.mp hc with ⟨x, _, hx⟩
  by_cases h : (isTokenChar x || isJsWs x) = true
  · rw [if_pos h] at hx; rwa [← hx]
  · rw [if_neg h] at hx; rw [← hx]; decide

theorem cleanTokens_ne_nil (s : String) :
    ∀ t ∈ cleanTokens s, t ≠ [] :=
  fun t ht => (splitWsAux_mem_no_ws _ [] (by simp) t ht).1

theorem cleanTokens_no_ws (s : String) :
    ∀ t ∈ cleanTokens s, ∀ c ∈ t, isJsWs c = false :=
  fun t ht => (splitWsAux_mem_no_ws _ [] (by simp) t ht).2

theorem cleanTokens_tokenChar (s : String) :
    ∀ t ∈ cleanTokens s, ∀ c ∈ t, isTokenChar c = true := by
  intro t ht c hc
  have hmem : c ∈ stripForEmbedding (s.data.map jsToLower) := by
    rcases splitWsAux_subset _ [] t c ht hc with h | h
    · exact h
    · simp at h
  have h1 := stripForEmbedding_chars _ c hmem
  have h2 := cleanTokens_no_ws s t ht c hc
  simp only [Bool.or_eq_true] at h1
  rcases h1 with h1 | h1
  · exact h1
  · rw [h2] at h1; exact absurd h1 (by simp)

theorem jsToLower_eq_self (c : Char) (h : (isTokenChar c || isJsWs c) = true) :
    jsToLower c = c := by
  simp only [isTokenChar, isJsWs, Bool.or_eq_true, Bool.and_eq_true,
    decide_eq_true_eq] at h
  rw [jsToLower, if_neg]
  intro hcon
  have h1 : ('A').toNat ≤ c.toNat := hcon.1
  have h2 : c.toNat ≤ ('Z').toNat := hcon.2
  have hA : ('A').toNat = 65 := rfl
  have hZ : ('Z').toNat = 90 := rfl
  omega

theorem stripForEmbedding_eq_self (l : List Char)
    (h : ∀ c ∈ l, (isTokenChar c || isJsWs c) = true) :
    stripForEmbedding l = l := by
  unfold stripForEmbedding
  induction l with
  | nil => rfl
  | cons a l ih =>
    simp only [List.map_cons]
    rw [if_pos (h a (List.mem_cons_self _ _)), ih fun c hc => h c (List.mem_cons_of_mem _ hc)]

theorem map_jsToLower_eq_self (l : List Char)
    (h : ∀ c ∈ l, (isTokenChar c || isJsWs c) = true) :
    l.map jsToLower = l := by
  induction l with
  | nil => rfl
  | cons a l ih =>
    simp only [List.map_cons]
    rw [jsToLower_eq_self a (h a (List.mem_cons_self _ _)),
      ih fun c hc => h c (List.mem_cons_of_mem _ hc)]

theorem joinSpace_chars (ts : List (List Char))
    (h : ∀ t ∈ ts, ∀ c ∈ t, isTokenChar c = true) :
    ∀ c ∈ joinSpace ts, (isTokenChar c || isJsWs c) = true := by
  induction ts with
  | nil => intro c hc; simp [joinSpace] at hc
  | cons t ts ih =>
    intro c hc
    cases ts with
    | nil =>
      have : joinSpace [t] = t := rfl
      rw [this] at hc
      simp [h t (List.mem_cons_self _ _) c hc]
    | cons t2 ts2 =>
      have he : joinSpace (t :: t2 :: ts2) = t ++ ' ' :: joinSpace (t2 :: ts2) := rfl
      rw [he] at hc
      rcases List.mem_append.mp hc with h1 | h1
      · simp [h t (List.mem_cons_self _ _) c h1]
      · rcases List.mem_cons.mp h1 with h2 | h2
        · subst h2; decide
        · exact ih (fun u hu => h u (List.mem_cons_of_mem _ hu)) c h2

theorem cleanForEmbedding_data (s : String) (hs : s ≠ "") :
    (cleanForEmbedding s).data = joinSpace ((cleanTokens s).filter keepToken) := by
  rw [cleanForEmbedding, if_neg hs]
  show jsTrimList (joinSpace ((cleanTokens s).filter keepToken)) = _
  have hne : ∀ t ∈ (cleanTokens s).filter keepToken, t ≠ [] :=
    fun t ht => cleanTokens_ne_nil s t (List.mem_filter.mp ht).1
  have hws : ∀ t ∈ (cleanTokens s).filter keepToken, ∀ c ∈ t, isJsWs c = false :=
    fun t ht => cleanTokens_no_ws s t (List.mem_filter.mp ht).1
  exact jsTrimList_eq_self _ (joinSpace_head_no_ws _ hne hws)
    (joinSpace_getLast_no_ws _ hne hws)

theorem cleanTokens_of_clean (s : String) (hs : s ≠ "") :
    cleanTokens (cleanForEmbedding s) = (cleanTokens s).filter keepToken := by
  have hchars : ∀ t ∈ (cleanTokens s).filter keepToken, ∀ c ∈ t, isTokenChar c = true :=
    fun t ht => cleanTokens_tokenChar s t (List.mem_filter.mp ht).1
  have hJ : ∀ c ∈ joinSpace ((cleanTokens s).filter keepToken),
      (isTokenChar c || isJsWs c) = true := joinSpace_chars _ hchars
  rw [cleanTokens, cleanForEmbedding_data s hs,
    map_jsToLower_eq_self _ hJ, stripForEmbedding_eq_self _ hJ]
  exact splitWs_joinSpace _
    (fun t ht => cleanTokens_ne_nil s t (List.mem_filter.mp ht).1)
    (fun t ht => cleanTokens_no_ws s t (List.mem_filter.mp ht).1)

theorem string_eq_of_data_eq (a b : String) (h : a.data = b.data) : a = b := by
  cases a; cases b; exact congrArg String.mk h

theorem cleanForEmbedding_idem (s : String) :
    cleanForEmbedding (cleanForEmbedding s) = cleanForEmbedding s := by
  by_cases hs : s = ""
  · subst hs; rfl
  · by_cases ho : cleanForEmbedding s = ""
    · rw [ho, cleanForEmbedding, if_pos rfl]
    · refine string_eq_of_data_eq _ _ ?_
      rw [cleanForEmbedding_data _ ho, cleanTokens_of_clean s hs,
        List.filter_filter, cleanForEmbedding_data s hs]
      congr 1
      exact List.filter_congr fun x _ => by rw [Bool.and_self]

theorem protected_survives (s t : String)
    (h1 : t ∈ PROTECTED_TOKENS) (h2 : t.data ∈ cleanTokens s) :
    t.data ∈ cleanTokens (cleanForEmbedding s) := by
  have hs : s ≠ "" := by
    intro h
    subst h
    have : cleanTokens "" = [] := rfl
    rw [this] at h2
    simp at h2
  rw [cleanTokens_of_clean s hs]
  refine List.mem_filter.mpr ⟨h2, ?_⟩
  have hmk : (⟨t.data⟩ : String) = t := by cases t; rfl
  rw [keepToken, if_pos (hmk ▸ h1)]

/-- C5: the text normalizer `cleanForEmbedding` is idempotent; every
protected token occurring as a token of the lower-cased stripped input is
still a token of the cleaned output, regardless of stopword-list
membership; and on the concrete input
`"HCA is a great solution for automation"` the output is
`"hca great solution automation"`. -/
theorem claim_C5_cleaner_idempotent :
    (∀ x : String, cleanForEmbedding (cleanForEmbedding x) = cleanForEmbedding x) ∧
    (∀ s t : String, t ∈ PROTECTED_TOKENS → t.data ∈ cleanTokens s →
      t.data ∈ cleanTokens (cleanForEmbedding s)) ∧
    cleanForEmbedding "HCA is a great solution for automation" =
      "hca great solution automation" :=
  ⟨cleanForEmbedding_idem, protected_survives, by decide⟩

/-- Witness for C5 at the concrete input `"HCA is great"` and the
protected token `"hca"`. -/
theorem claim_C5_cleaner_idempotent_witness :
    cleanForEmbedding (cleanForEmbedding "HCA is great") = cleanForEmbedding "HCA is great" ∧
    ("hca" : String) ∈ PROTECTED_TOKENS ∧
    ("hca" : String).data ∈ cleanTokens "HCA is great" ∧
    ("hca" : String).data ∈ cleanTokens (cleanForEmbedding "HCA is great") :=
  ⟨claim_C5_cleaner_idempotent.1 "HCA is great", by decide, by decide,
   claim_C5_cleaner_idempotent.2.1 "HCA is great" "hca" (by decide) (by decide)⟩

/-- Variant of `HINGLISH_STOPWORDS` with the whitespace-containing entries
(`"ho gya"`) removed; used to state claim C10, which asserts that those
entries are inert. -/
def HINGLISH_STOPWORDS_SINGLE : List String :=
  HINGLISH_STOPWORDS.filter fun w => !w.data.any isJsWs

/-- Variant of `HINDI_STOPWORDS` with the whitespace-containing entries
(`"कर दें"`, `"कर लो"`) removed. -/
def HINDI_STOPWORDS_SINGLE : List String :=
  HINDI_STOPWORDS.filter fun w => !w.data.any isJsWs

/-- The keep/drop decision computed against the variant stopword sets. -/
def keepTokenVariant (t : List Char) : Bool :=
  if (⟨t⟩ : String) ∈ PROTECTED_TOKENS then true
  else if (⟨t⟩ : String) ∈ EN_STOPWORDS then false
  else if (⟨t⟩ : String) ∈ HINGLISH_STOPWORDS_SINGLE then false
  else if (⟨t⟩ : String) ∈ HINDI_STOPWORDS_SINGLE then false
  else true

/-- `cleanForEmbedding` computed against the variant stopword sets. -/
def cleanForEmbeddingVariant (s : String) : String :=
  if s = "" then ""
  else ⟨jsTrimList (joinSpace ((cleanTokens s).filter keepTokenVariant))⟩

theorem keepTokenVariant_eq (t : List Char)
    (hws : ∀ c ∈ t, isJsWs c = false) : keepTokenVariant t = keepToken t := by
  have hany : t.any isJsWs = false := by
    rw [List.any_eq_false]
    intro c hc
    simp [hws c hc]
  have hdata : (⟨t⟩ : String).data = t := rfl
  have h1 : ((⟨t⟩ : String) ∈ HINGLISH_STOPWORDS_SINGLE) ↔
      ((⟨t⟩ : String) ∈ HINGLISH_STOPWORDS) := by
    rw [HINGLISH_STOPWORDS_SINGLE]
    constructor
    · intro h; exact (List.mem_filter.mp h).1
    · intro h; exact List.mem_filter.mpr ⟨h, by rw [hdata, hany]; rfl⟩
  have h2 : ((⟨t⟩ : String) ∈ HINDI_STOPWORDS_SINGLE) ↔
      ((⟨t⟩ : String) ∈ HINDI_STOPWORDS) := by
    rw [HINDI_STOPWORDS_SINGLE]
    constructor
    · intro h; exact (List.mem_filter.mp h).1
    · intro h; exact List.mem_filter.mpr ⟨h, by rw [hdata, hany]; rfl⟩
  rw [keepTokenVariant, keepToken]
  by_cases hp : (⟨t⟩ : String) ∈ PROTECTED_TOKENS
  · rw [if_pos hp, if_pos hp]
  · rw [if_neg hp, if_neg hp]
    by_cases he : (⟨t⟩ : String) ∈ EN_STOPWORDS
    · rw [if_pos he, if_pos he]
    · rw [if_neg he, if_neg he]
      by_cases hh : (⟨t⟩ : String) ∈ HINGLISH_STOPWORDS
      · rw [if_pos (h1.mpr hh), if_pos hh]
      · rw [if_neg (fun h => hh (h1.mp h)), if_neg hh]
        by_cases hd : (⟨t⟩ : String) ∈ HINDI_STOPWORDS
        · rw [if_pos (h2.mpr hd), if_pos hd]
        · rw [if_neg (fun h => hd (h2.mp h)), if_neg hd]

/-- C10: tokens produced by whitespace splitting never contain whitespace,
so they can never equal the multi-word stopword entries `"ho gya"`,
`"कर दें"`, `"कर लो"`; consequently `cleanForEmbedding` computes the same
function when those entries are removed from the stopword sets. -/
theorem claim_C10_multiword_stopwords_inert :
    (∀ (s : String), ∀ t ∈ cleanTokens s,
      (⟨t⟩ : String) ≠ "ho gya" ∧ (⟨t⟩ : String) ≠ "कर दें" ∧ (⟨t⟩ : String) ≠ "कर लो") ∧
    (∀ s : String, cleanForEmbeddingVariant s = cleanForEmbedding s) := by
  constructor
  · intro s t ht
    have hws := cleanTokens_no_ws s t ht
    have key : ∀ u : String, ' ' ∈ u.data → (⟨t⟩ : String) ≠ u := by
      intro u hu he
      have : t = u.data := congrArg String.data he
      have hmem : ' ' ∈ t := by rw [this]; exact hu
      have := hws ' ' hmem
      simp [isJsWs] at this
    exact ⟨key _ (by decide), key _ (by decide), key _ (by decide)⟩
  · intro s
    by_cases hs : s = ""
    · subst hs; rfl
    · rw [cleanForEmbeddingVariant, if_neg hs, cleanForEmbedding, if_neg hs]
      refine string_eq_of_data_eq _ _ ?_
      show jsTrimList _ = jsTrimList _
      congr 1
      congr 1
      exact List.filter_congr fun t ht => keepTokenVariant_eq t (cleanTokens_no_ws s t ht)

/-- Witness for C10 at the concrete input `"ho gya hello"`, whose token
`"ho"` is not the multi-word entry, and on which the variant stopword
sets give the same cleaned output. -/
theorem claim_C10_multiword_stopwords_inert_witness :
    ("ho" : String).data ∈ cleanTokens "ho gya hello" ∧
    ((⟨("ho" : String).data⟩ : String) ≠ "ho gya" ∧
     (⟨("ho" : String).data⟩ : String) ≠ "कर दें" ∧
     (⟨("ho" : String).data⟩ : String) ≠ "कर लो") ∧
    cleanForEmbeddingVariant "ho gya hello" = cleanForEmbedding "ho gya hello" :=
  ⟨by decide,
   claim_C10_multiword_stopwords_inert.1 "ho gya hello" ("ho" : String).data (by decide),
   claim_C10_multiword_stopwords_inert.2 "ho gya hello"⟩

/- ===================== Cosine similarity (server.mjs) ===================== -/

/-- Sum of squares of a real vector: the `na`/`nb` accumulators of
`cosineSim` (floats idealized as reals). -/
noncomputable def sqNormL (l : List ℝ) : ℝ :=
  (l.map fun x => x * x).sum

/-- The `dot` accumulator of `cosineSim`: the loop runs over
`n = Math.min(a.length, b.length)` indices. -/
noncomputable def truncDot (a b : List ℝ) : ℝ :=
  (List.zipWith (fun x y => x * y) (a.take (min a.length b.length))
    (b.take (min a.length b.length))).sum

/-- The denominator `Math.sqrt(na) * Math.sqrt(nb)` of `cosineSim`. -/
noncomputable def truncNormProd (a b : List ℝ) : ℝ :=
  Real.sqrt (sqNormL (a.take (min a.length b.length))) *
    Real.sqrt (sqNormL (b.take (min a.length b.length)))

/-- `cosineSim(a, b)` from `server.mjs`:
`dot / (Math.sqrt(na) * Math.sqrt(nb) || 1)` — the `|| 1` makes the
denominator 1 exactly when the product of the norms is zero. -/
noncomputable def cosineSim (a b : List ℝ) : ℝ :=
  truncDot a b / (if truncNormProd a b = 0 then 1 else truncNormProd a b)

theorem sqNormL_nil : sqNormL [] = 0 := by simp [sqNormL]

theorem sqNormL_cons (x : ℝ) (l : List ℝ) : sqNormL (x :: l) = x * x + sqNormL l := by
  simp [sqNormL]

theorem sqNormL_nonneg (l : List ℝ) : 0 ≤ sqNormL l := by
  refine List.sum_nonneg ?_
  intro x hx
  rcases List.mem_map.mp hx with ⟨y, _, hy⟩
  rw [← hy]
  exact mul_self_nonneg y

theorem sqNormL_pos (v : List ℝ) (x : ℝ) (hx : x ∈ v) (hne : x ≠ 0) :
    0 < sqNormL v := by
  induction v with
  | nil => simp at hx
  | cons a v ih =>
    rw [sqNormL_cons]
    rcases List.mem_cons.mp hx with h | h
    · subst h
      exact add_pos_of_pos_of_nonneg (mul_self_pos.mpr hne) (sqNormL_nonneg v)
    · exact add_pos_of_nonneg_of_pos (mul_self_nonneg a) (ih h)

theorem abs_zipWith_mul_sum_le (a : List ℝ) :
    ∀ b : List ℝ,
      |(List.zipWith (fun x y => x * y) a b).sum| ≤
        Real.sqrt (sqNormL a) * Real.sqrt (sqNormL b) := by
  induction a with
  | nil =>
    intro b
    simp [mul_nonneg (Real.sqrt_nonneg _) (Real.sqrt_nonneg _)]
  | cons x a ih =>
    intro b
    cases b with
    | nil => simp [mul_nonneg (Real.sqrt_nonneg _) (Real.sqrt_nonneg _)]
    | cons y b =>
      simp only [List.zipWith_cons_cons, List.sum_cons, sqNormL_cons]
      have hA : (0:ℝ) ≤ sqNormL a := sqNormL_nonneg a
      have hB : (0:ℝ) ≤ sqNormL b := sqNormL_nonneg b
      calc |x * y + (List.zipWith (fun x y => x * y) a b).sum|
          ≤ |x * y| + |(List.zipWith (fun x y => x * y) a b).sum| := abs_add _ _
        _ ≤ |x| * |y| + Real.sqrt (sqNormL a) * Real.sqrt (sqNormL b) := by
            rw [abs_mul]
            exact add_le_add_left (ih b) _
        _ ≤ Real.sqrt (x * x + sqNormL a) * Real.sqrt (y * y + sqNormL b) := by
            have hxa : (0:ℝ) ≤ x * x + sqNormL a := add_nonneg (mul_self_nonneg x) hA
            have hyb : (0:ℝ) ≤ y * y + sqNormL b := add_nonneg (mul_self_nonneg y) hB
            rw [show Real.sqrt (x * x + sqNormL a) * Real.sqrt (y * y + sqNormL b) =
                Real.sqrt ((x * x + sqNormL a) * (y * y + sqNormL b)) from
              (Real.sqrt_mul hxa _).symm]
            refine (Real.le_sqrt ?_ ?_).mpr ?_
            · exact add_nonneg (mul_nonneg (abs_nonneg x) (abs_nonneg y))
                (mul_nonneg (Real.sqrt_nonneg _) (Real.sqrt_nonneg _))
            · exact mul_nonneg hxa hyb
            · have e1 : Real.sqrt (sqNormL a) ^ 2 = sqNormL a := Real.sq_sqrt hA
              have e2 : Real.sqrt (sqNormL b) ^ 2 = sqNormL b := Real.sq_sqrt hB
              have e3 : |x| * |x| = x * x := abs_mul_abs_self x
              have e4 : |y| * |y| = y * y := abs_mul_abs_self y
              nlinarith [sq_nonneg (|x| * Real.sqrt (sqNormL b) - |y| * Real.sqrt (sqNormL a)),
                abs_nonneg x, abs_nonneg y, Real.sqrt_nonneg (sqNormL a),
                Real.sqrt_nonneg (sqNormL b)]

theorem abs_truncDot_le (a b : List ℝ) : |truncDot a b| ≤ truncNormProd a b :=
  abs_zipWith_mul_sum_le (a.take (min a.length b.length)) (b.take (min a.length b.length))

theorem truncNormProd_nonneg (a b : List ℝ) : 0 ≤ truncNormProd a b :=
  mul_nonneg (Real.sqrt_nonneg _) (Real.sqrt_nonneg _)

theorem truncDot_comm (a b : List ℝ) : truncDot a b = truncDot b a := by
  rw [truncDot, truncDot, min_comm b.length a.length,
    List.zipWith_comm_of_comm _ mul_comm]

theorem truncNormProd_comm (a b : List ℝ) : truncNormProd a b = truncNormProd b a := by
  rw [truncNormProd, truncNormProd, min_comm b.length a.length, mul_comm]

theorem zipWith_mul_self_sum (v : List ℝ) :
    (List.zipWith (fun x y => x * y) v v).sum = sqNormL v := by
  induction v with
  | nil => simp [sqNormL]
  | cons a v ih => simp only [List.zipWith_cons_cons, List.sum_cons, sqNormL_cons, ih]

theorem truncDot_self (v : List ℝ) : truncDot v v = sqNormL v := by
  rw [truncDot, min_self, List.take_length, zipWith_mul_self_sum]

theorem truncNormProd_self (v : List ℝ) : truncNormProd v v = sqNormL v := by
  rw [truncNormProd, min_self, List.take_length, Real.mul_self_sqrt (sqNormL_nonneg v)]

/-- C6: cosine similarity as implemented is symmetric, bounded in
`[-1, 1]`, equal to `1` on any nonzero vector paired with itself, and uses
denominator `1` (no division by zero) whenever either truncated vector
norm is zero. -/
theorem claim_C6_cosine_similarity :
    (∀ a b : List ℝ, cosineSim a b = cosineSim b a) ∧
    (∀ a b : List ℝ, -1 ≤ cosineSim a b ∧ cosineSim a b ≤ 1) ∧
    (∀ v : List ℝ, (∃ x ∈ v, x ≠ 0) → cosineSim v v = 1) ∧
    (∀ a b : List ℝ,
      (Real.sqrt (sqNormL (a.take (min a.length b.length))) = 0 ∨
       Real.sqrt (sqNormL (b.take (min a.length b.length))) = 0) →
      cosineSim a b = truncDot a b / 1) := by
  refine ⟨?_, ?_, ?_, ?_⟩
  · intro a b
    rw [cosineSim, cosineSim, truncDot_comm, truncNormProd_comm]
  · intro a b
    have habs : |truncDot a b| ≤ truncNormProd a b := abs_truncDot_le a b
    by_cases hS : truncNormProd a b = 0
    · have h0 : truncDot a b = 0 := by
        have : |truncDot a b| ≤ 0 := hS ▸ habs
        exact abs_eq_zero.mp (le_antisymm this (abs_nonneg _))
      rw [cosineSim, if_pos hS, h0]
      norm_num
    · have hpos : 0 < truncNormProd a b :=
        lt_of_le_of_ne (truncNormProd_nonneg a b) (Ne.symm hS)
      rw [cosineSim, if_neg hS]
      constructor
      · rw [le_div_iff hpos]
        have h1 := neg_abs_le (truncDot a b)
        nlinarith
      · rw [div_le_one hpos]
        exact le_trans (le_abs_self _) habs
  · intro v hv
    obtain ⟨x, hx, hne⟩ := hv
    have hpos : 0 < sqNormL v := sqNormL_pos v x hx hne
    rw [cosineSim, truncDot_self, truncNormProd_self, if_neg (ne_of_gt hpos)]
    exact div_self (ne_of_gt hpos)
  · intro a b h
    have hS : truncNormProd a b = 0 := by
      rw [truncNormProd]
      rcases h with h | h
      · rw [h, zero_mul]
      · rw [h, mul_zero]
    rw [cosineSim, if_pos hS]

/-- Witness for C6 at the concrete nonzero vector `[1]`. -/
theorem claim_C6_cosine_similarity_witness :
    ((1:ℝ) ∈ [(1:ℝ)] ∧ (1:ℝ) ≠ 0) ∧ cosineSim [(1:ℝ)] [(1:ℝ)] = 1 :=
  ⟨⟨by simp, one_ne_zero⟩,
   claim_C6_cosine_similarity.2.2.1 [(1:ℝ)] ⟨1, by simp, one_ne_zero⟩⟩

/- ===================== Language mode detector (server.mjs) ===================== -/

/-- Membership in the Devanagari block, the test `/[ऀ-ॿ]/` of
`detectResponseMode`. -/
def isDevanagari (c : Char) : Bool :=
  0x900 ≤ c.toNat && c.toNat ≤ 0x97F

/-- JavaScript `hay.includes(needle)` on character lists. -/
def containsSub (hay needle : List Char) : Bool :=
  (List.range (hay.length + 1)).any fun i => needle.isPrefixOf (hay.drop i)

/-- The lower-cased text `detectResponseMode` scores:
`(q || "").toLowerCase()`. -/
def detectTextOf (q : String) : List Char :=
  q.data.map jsToLower

/-- The hinglish marker-word list of `detectResponseMode`. -/
def hinglishTokens : List String :=
  ["hai", "hain", "tha", "thi", "the", "kya", "kyu", "kyun", "kyunki", "kisi",
   "kis", "kaun", "kab", "kaha", "kahaan", "kaise", "nahi", "nahin", "ka",
   "ki", "ke", "mein", "me", "mai", "mei", "hum", "ap", "aap", "tum", "kr",
   "kar", "karo", "karna", "chahiye", "bhi", "sirf", "jaldi", "kitna", "ho",
   "hoga", "hogaya", "krdo", "pls", "plz", "yaar", "shukriya", "dhanyavaad",
   "dhanyavad"]

/-- One marker-word test of `detectResponseMode`:
`text.includes(" t ") || text.startsWith(t + " ") || text.endsWith(" " + t) || text === t`. -/
def markerHit (text : List Char) (t : String) : Bool :=
  containsSub text (' ' :: (t.data ++ [' '])) ||
  (t.data ++ [' ']).isPrefixOf text ||
  (' ' :: t.data).isSuffixOf text ||
  text == t.data

/-- A character of the chat-cue class `[:)(!?]`. -/
def isCueChar (c : Char) : Bool :=
  c = ':' || c = ')' || c = '(' || c = '!' || c = '?'

/-- One of the cue emoji 😂, 👍, 🙏. -/
def isCueEmoji (c : Char) : Bool :=
  c.toNat = 0x1F602 || c.toNat = 0x1F44D || c.toNat = 0x1F64F

/-- Whether `/[:)(!?]{2,}|\.{3,}|😂|👍|🙏/` matches, i.e. whether the
chat-cue match count of `detectResponseMode` is at least one. -/
def hasChatCue : List Char → Bool
  | c1 :: c2 :: c3 :: rest =>
    (isCueChar c1 && isCueChar c2) || (c1 = '.' && c2 = '.' && c3 = '.') ||
    isCueEmoji c1 || hasChatCue (c2 :: c3 :: rest)
  | [c1, c2] => (isCueChar c1 && isCueChar c2) || isCueEmoji c1 || isCueEmoji c2
  | [c1] => isCueEmoji c1
  | [] => false

/-- The marker-word loop of `detectResponseMode`: `score += 1` for every
marker word that hits (the score stays a whole number throughout the
loop). -/
def hinglishMarkerCount (text : List Char) : Nat :=
  hinglishTokens.foldl (fun s t => if markerHit text t then s + 1 else s) 0

/-- The final score of `detectResponseMode`: marker hits plus the flat
`0.5` chat-cue bonus. -/
def hinglishScore (text : List Char) : ℚ :=
  (hinglishMarkerCount text : ℚ) + (if hasChatCue text then 1/2 else 0)

/-- `detectResponseMode(q)` from `server.mjs`. -/
def detectResponseMode (q : String) : String :=
  if (detectTextOf q).any isDevanagari then "hinglish"
  else if 2 ≤ hinglishScore (detectTextOf q) then "hinglish" else "english"

theorem foldl_if_count_eq_countP {α : Type} (p : α → Bool) :
    ∀ (l : List α) (init : Nat),
      l.foldl (fun s t => if p t then s + 1 else s) init = init + l.countP p := by
  intro l
  induction l with
  | nil => intro init; simp
  | cons a l ih =>
    intro init
    simp only [List.foldl_cons, List.countP_cons]
    by_cases h : p a
    · rw [if_pos h, ih]
      simp [h]
      omega
    · rw [if_neg h, ih]
      simp [h]

/-- C4: `detectResponseMode` returns `"hinglish"` immediately on any
Devanagari codepoint; otherwise it returns `"hinglish"` exactly when the
score — one point per marker word of the fixed list hitting as a
standalone (space-bounded) token of the lower-cased text, plus a flat
`0.5` when at least one chat cue is present — is at least 2.  In
particular `detectResponseMode "hai kya" = "hinglish"` and
`detectResponseMode "what is your price" = "english"`. -/
theorem claim_C4_detect_mode :
    (∀ q : String, (detectTextOf q).any isDevanagari = true →
      detectResponseMode q = "hinglish") ∧
    (∀ q : String, (detectTextOf q).any isDevanagari = false →
      (detectResponseMode q = "hinglish" ↔ 2 ≤ hinglishScore (detectTextOf q))) ∧
    (∀ text : List Char,
      hinglishScore text = (hinglishTokens.countP (markerHit text) : ℚ) +
        (if hasChatCue text then 1/2 else 0)) ∧
    detectResponseMode "hai kya" = "hinglish" ∧
    detectResponseMode "what is your price" = "english" := by
  refine ⟨?_, ?_, ?_, ?_, ?_⟩
  · intro q h
    rw [detectResponseMode, if_pos h]
  · intro q h
    rw [detectResponseMode, if_neg (by simp [h])]
    by_cases hs : 2 ≤ hinglishScore (detectTextOf q)
    · rw [if_pos hs]
      simp [hs]
    · rw [if_neg hs]
      constructor
      · intro he; exact absurd he (by decide)
      · intro he; exact absurd he hs
  · intro text
    rw [hinglishScore, hinglishMarkerCount, foldl_if_count_eq_countP]
    simp
  · have hc : hinglishMarkerCount (detectTextOf "hai kya") = 2 := by decide
    have hcue : hasChatCue (detectTextOf "hai kya") = false := by decide
    have hs : 2 ≤ hinglishScore (detectTextOf "hai kya") := by
      rw [hinglishScore, hc, hcue]
      norm_num
    rw [detectResponseMode, if_neg (by decide), if_pos hs]
  · have hc : hinglishMarkerCount (detectTextOf "what is your price") = 0 := by decide
    have hcue : hasChatCue (detectTextOf "what is your price") = false := by decide
    have hs : ¬ 2 ≤ hinglishScore (detectTextOf "what is your price") := by
      rw [hinglishScore, hc, hcue]
      norm_num
    rw [detectResponseMode, if_neg (by decide), if_neg hs]

/-- Witness for C4: a Devanagari input takes the immediate branch. -/
theorem claim_C4_detect_mode_witness :
    (detectTextOf "क्या").any isDevanagari = true ∧
    detectResponseMode "क्या" = "hinglish" :=
  ⟨by decide, claim_C4_detect_mode.1 "क्या" (by decide)⟩

/- ===================== Small-talk intent router (server.mjs) ===================== -/

/-- The `\w` word-character class of JavaScript regular expressions
(`[A-Za-z0-9_]`), used for `\b` boundaries and for the `[\W_]` strip of
the ultra-short guard. -/
def isWordChar (c : Char) : Bool :=
  (0x41 ≤ c.toNat && c.toNat ≤ 0x5a) || (0x61 ≤ c.toNat && c.toNat ≤ 0x7a) ||
  (0x30 ≤ c.toNat && c.toNat ≤ 0x39) || c = '_'

/-- Atoms of the hand-compiled small-talk regular expressions: a literal,
a one-or-more repetition of a character (`x+`), a one-or-more repetition
over a character class (`[xy]+`), an optional literal (`(...)?`), and
`\s*`. -/
inductive PatAtom where
  | lit (s : String)
  | plus (c : Char)
  | plusSet (cs : List Char)
  | opt (s : String)
  | ws

/-- Word-character status of the last character of a literal (falling back
to the status carried in from the left when the literal is empty). -/
def lastWordOf (s : String) (dflt : Bool) : Bool :=
  match s.data.getLast? with
  | some c => isWordChar c
  | none => dflt

/-- All ways one atom can consume a prefix of `input`.  Each result pairs
the word-character status of the last consumed character (for the final
`\b` test) with the remaining input. -/
def matchAtom : PatAtom → Bool → List Char → List (Bool × List Char)
  | .lit s, lw, input =>
    if s.data.isPrefixOf input then [(lastWordOf s lw, input.drop s.data.length)] else []
  | .plus c, _, input =>
    (List.range ((input.takeWhile fun d => d = c).length)).map
      fun j => (isWordChar c, input.drop (j + 1))
  | .plusSet cs, _, input =>
    (List.range ((input.takeWhile fun d => cs.contains d).length)).map
      fun j => (isWordChar (input.getD j ' '), input.drop (j + 1))
  | .opt s, lw, input =>
    (if s.data.isPrefixOf input then [(lastWordOf s lw, input.drop s.data.length)] else []) ++
      [(lw, input)]
  | .ws, lw, input =>
    (List.range ((input.takeWhile isJsWs).length + 1)).map
      fun j => (if j = 0 then lw else false, input.drop j)

/-- All ways a sequence of atoms can consume a prefix of `input`, starting
at the beginning of the string (previous character: none, non-word). -/
def matchSeq (atoms : List PatAtom) (input : List Char) : List (Bool × List Char) :=
  atoms.foldl (fun states a => states.flatMap fun st => matchAtom a st.1 st.2)
    [(false, input)]

/-- The trailing `\b` of every small-talk pattern: a boundary holds when
the word-character status changes between the last consumed character and
the next input character (end of input counts as non-word). -/
def boundaryOk (st : Bool × List Char) : Bool :=
  st.1 != (match st.2 with | [] => false | c :: _ => isWordChar c)

/-- Whether one alternative (a sequence of atoms followed by `\b`) matches
at the start of `input`. -/
def matchesAt (atoms : List PatAtom) (input : List Char) : Bool :=
  (matchSeq atoms input).any boundaryOk

/-- An anchored pattern `^(alt1|alt2|…)\b`. -/
def matchesAnchored (alts : List (List PatAtom)) (input : List Char) : Bool :=
  alts.any fun atoms => matchesAt atoms input

/-- An unanchored pattern `(alt1|alt2|…)\b` (tried at every start
position). -/
def matchesAnywhere (alts : List (List PatAtom)) (input : List Char) : Bool :=
  (List.range (input.length + 1)).any fun i => matchesAnchored alts (input.drop i)

/-- The ordered pattern list of `smallTalkMatch`, hand-compiled from the
source regexes.  Each entry: (kind, anchored?, alternatives).  Alternation
groups inside a pattern are expanded into separate alternatives. -/
def smallTalkPatterns : List (String × Bool × List (List PatAtom)) :=
  [("hello", true,
     [[.lit "h", .plus 'i'],
      [.lit "h", .plusSet ['i', 'y']],
      [.lit "hell", .plus 'o'],
      [.lit "hey", .opt " there"],
      [.lit "hl", .plus 'o'],
      [.lit "hlo", .plus 'o'],
      [.lit "y", .plus 'o'],
      [.lit "hola"], [.lit "namaste"], [.lit "namaskar"], [.lit "salaam"],
      [.lit "salam"], [.lit "sup"],
      [.lit "was", .opt "s", .lit "up"],
      [.lit "what", .opt "\x27", .lit "s up"],
      [.lit "👋"], [.lit "🙏"]]),
   ("morning", true, [[.lit "good", .ws, .lit "morning"]]),
   ("afternoon", true, [[.lit "good", .ws, .lit "afternoon"]]),
   ("evening", true, [[.lit "good", .ws, .lit "evening"]]),
   ("ack", true,
     [[.lit "o", .plus 'k'],
      [.lit "oka", .plus 'y'],
      [.lit "ok", .plus 'k'],
      [.lit "hm", .plus 'm'],
      [.lit "haa", .plus 'n'],
      [.lit "ha", .plus 'a'],
      [.lit "sure"], [.lit "done"], [.lit "great"], [.lit "nice"],
      [.lit "cool"], [.lit "perfect"], [.lit "thik"], [.lit "theek"],
      [.lit "fine"]]),
   ("thanks", true,
     [[.lit "thanks"],
      [.lit "thank", .ws, .lit "you"],
      [.lit "thx"], [.lit "ty"],
      [.lit "much", .ws, .lit "appreciated"],
      [.lit "much", .ws, .lit "thanks"],
      [.lit "many", .ws, .lit "thanks"],
      [.lit "appreciate", .opt "d"],
      [.lit "shukriya"], [.lit "dhanyavaad"], [.lit "dhanyavad"]]),
   ("bye", true,
     [[.lit "bye"],
      [.lit "good", .ws, .lit "bye"],
      [.lit "goodbye"],
      [.lit "see", .ws, .lit "ya"],
      [.lit "see", .ws, .lit "you"],
      [.lit "take", .ws, .lit "care"],
      [.lit "tc"],
      [.lit "catch", .ws, .lit "you", .ws, .lit "later"]]),
   ("help", false,
     [[.lit "who", .ws, .lit "are", .ws, .lit "you"],
      [.lit "what", .ws, .lit "can", .ws, .lit "you", .ws, .lit "do"],
      [.lit "help"], [.lit "menu"], [.lit "options"],
      [.lit "how", .ws, .lit "to", .ws, .lit "use"]])]

/-- `smallTalkMatch(q)` from `server.mjs`: trim the input, then test the
patterns in order and return the first matching kind.  The `/i` flag is
modeled by lower-casing the text (all patterns are lower-case ASCII). -/
def smallTalkMatch (q : String) : Option String :=
  (smallTalkPatterns.find? fun p =>
    if p.2.1 then matchesAnchored p.2.2 ((jsTrimList q.data).map jsToLower)
    else matchesAnywhere p.2.2 ((jsTrimList q.data).map jsToLower)).map fun p => p.1

/-- `getTimeOfDayGreeting()` from `server.mjs`, with the current local
hour supplied as a parameter. -/
def getTimeOfDayGreeting (h : Nat) : String :=
  if h < 5 then "Good night"
  else if h < 12 then "Good morning"
  else if h < 17 then "Good afternoon"
  else if h < 21 then "Good evening"
  else "Hello"

/-- One canned-reply bank of `makeSmallTalkReply`. -/
structure SmallTalkBank where
  hello : List String
  morning : List String
  afternoon : List String
  evening : List String
  thanks : List String
  bye : List String
  help : List String
  ack : List String

/-- The English reply bank (`en`) of `makeSmallTalkReply`. -/
def enBank (hour : Nat) : SmallTalkBank where
  hello :=
    [getTimeOfDayGreeting hour ++
       "! 👋 I’m HCA’s assistant. Ask me anything about HCA (brands, machines, spares, etc.).",
     "Hello! 👋 How can I help you with HCA today?",
     "Hi! 👋 I’m here for HCA queries—try “About HCA”, “Duke-Jia details”, or “Spares info”."]
  morning := ["Good morning! ☀️ How can I help with HCA today?"]
  afternoon := ["Good afternoon! 😊 What would you like to know about HCA?"]
  evening := ["Good evening! 🌙 Need help with HCA machines or spares?"]
  thanks :=
    ["You’re welcome! 🙏 Anything else I can do for you about HCA?",
     "Happy to help! If you need more info, just ask. 🙂"]
  bye :=
    ["Take care! 👋 If you need HCA help later, I’m here.",
     "Bye! Have a great day. 👋"]
  help :=
    ["I answer from HCA’s knowledge base. You can ask: “Which brands do we represent?”, “About Duke-Jia E+P flagship”, or “Industries we serve?”"]
  ack :=
    ["Got it! 👍 What would you like to ask about HCA next?",
     "Okay. Tell me your HCA question—brands, machines, or spares."]

/-- The Hinglish reply bank (`hi`) of `makeSmallTalkReply`. -/
def hiBank (_hour : Nat) : SmallTalkBank where
  hello :=
    ["Namaste! 👋 HCA assistant bol raha hoon. HCA se related kuch bhi puchhiye (brands, machines, spares).",
     "Hello ji! 👋 HCA ke baare mein madad chahiye?",
     "Hi! 👋 Aap HCA queries puchh sakte ho—“About HCA”, “Duke-Jia details”, “Spares info”."]
  morning := ["Good morning! ☀️ Aaj HCA mein kis cheez mein help chahiye?"]
  afternoon := ["Good afternoon! 😊 HCA ke baare mein kya jaan’na chahoge?"]
  evening := ["Good evening! 🌙 HCA machines/spares par madad chahiye to batayein."]
  thanks :=
    ["Shukriya! 🙏 Aur kuch madad chahiye to pooch lijiye.",
     "Welcome ji! 🙂 Aur koi HCA info chahiye?"]
  bye :=
    ["Theek hai, milte hain! 👋 Jab chahein HCA help ke liye ping kar dijiyega.",
     "Bye! 👋 Din shubh rahe."]
  help :=
    ["Main HCA ke knowledge base se answer karta hoon. Aap pooch sakte ho: “Hum kin brands ko represent karte hain?”, “Duke-Jia E+P flagship kya hai?”, “Hum kaun-kaun si industries serve karte hain?”"]
  ack :=
    ["Thik hai! 👍 Ab HCA ke baare mein kya puchhna hai?",
     "Okay ji. HCA—brands, machines ya spares—kis par info chahiye?"]

/-- `arr[Math.floor(Math.random() * arr.length)]`: the random draw is
modeled by a caller-supplied `rand`, reduced modulo the bank size. -/
def pickReply (arr : List String) (rand : Nat) : String :=
  arr.getD (rand % arr.length) ""

/-- `makeSmallTalkReply(kind, mode)` from `server.mjs`. -/
def makeSmallTalkReply (kind mode : String) (hour rand : Nat) : String :=
  let bank := if mode = "hinglish" then hiBank hour else enBank hour
  match kind with
  | "hello" => pickReply bank.hello rand
  | "morning" => pickReply bank.morning rand
  | "afternoon" => pickReply bank.afternoon rand
  | "evening" => pickReply bank.evening rand
  | "thanks" => pickReply bank.thanks rand
  | "bye" => pickReply bank.bye rand
  | "help" => pickReply bank.help rand
  | "ack" => pickReply bank.ack rand
  | _ => pickReply bank.hello rand

/- ===================== Session store (server.mjs) ===================== -/

/-- One turn of a session history. -/
structure Turn where
  role : String
  content : String
  ts : Nat
deriving DecidableEq

/-- One session record: `{ history: [], createdAt, lastSeen }`. -/
structure SessionRec where
  history : List Turn
  createdAt : Nat
  lastSeen : Nat
deriving DecidableEq

/-- `sessions.get(sid)` on the association-list model of the `Map`. -/
def storeGet : List (String × SessionRec) → String → Option SessionRec
  | [], _ => none
  | e :: rest, sid => if e.1 = sid then some e.2 else storeGet rest sid

/-- `sessions.set(sid, s)`: replace the entry if present, else append. -/
def storeSet : List (String × SessionRec) → String → SessionRec → List (String × SessionRec)
  | [], sid, s => [(sid, s)]
  | e :: rest, sid, s => if e.1 = sid then (sid, s) :: rest else e :: storeSet rest sid s

/-- The session-id selection of `sessionMiddleware`: a supplied id is used
unless it is missing, falsy (empty), or longer than 200 characters, in
which case a fresh id is minted. -/
def middlewareSid (supplied : Option String) (fresh : String) : String :=
  match supplied with
  | some s => if s = "" ∨ 200 < s.length then fresh else s
  | none => fresh

/-- The store effect of `sessionMiddleware`: create the record lazily, or
touch `lastSeen` on an existing record. -/
def middlewareStore (store : List (String × SessionRec)) (sid : String) (now : Nat) :
    List (String × SessionRec) :=
  match storeGet store sid with
  | none => storeSet store sid ⟨[], now, now⟩
  | some s => storeSet store sid { s with lastSeen := now }

/-- The `/api/reset` route: session middleware, then
`req.session.history = []`, responding `{ sessionId, cleared: true }`. -/
def resetEndpoint (store : List (String × SessionRec)) (supplied : Option String)
    (fresh : String) (now : Nat) :
    List (String × SessionRec) × String × Bool :=
  match storeGet (middlewareStore store (middlewareSid supplied fresh) now)
      (middlewareSid supplied fresh) with
  | some s =>
    (storeSet (middlewareStore store (middlewareSid supplied fresh) now)
       (middlewareSid supplied fresh) { s with history := [] },
     middlewareSid supplied fresh, true)
  | none =>
    (middlewareStore store (middlewareSid supplied fresh) now,
     middlewareSid supplied fresh, true)

theorem storeGet_storeSet_self (store : List (String × SessionRec)) (sid : String)
    (s : SessionRec) : storeGet (storeSet store sid s) sid = some s := by
  induction store with
  | nil => simp [storeSet, storeGet]
  | cons e rest ih =>
    by_cases h : e.1 = sid
    · rw [storeSet, if_pos h, storeGet, if_pos rfl]
    · rw [storeSet, if_neg h, storeGet, if_neg h]
      exact ih

theorem storeGet_storeSet_other (store : List (String × SessionRec)) (sid sid2 : String)
    (s : SessionRec) (h : sid2 ≠ sid) :
    storeGet (storeSet store sid s) sid2 = storeGet store sid2 := by
  have hns : ¬ sid = sid2 := fun he => h he.symm
  induction store with
  | nil => simp [storeSet, storeGet, hns]
  | cons e rest ih =>
    by_cases he : e.1 = sid
    · have hne2 : ¬ e.1 = sid2 := by rw [he]; exact hns
      rw [storeSet, if_pos he]
      simp [storeGet, hns, hne2]
    · rw [storeSet, if_neg he]
      rw [storeGet, storeGet]
      by_cases h2 : e.1 = sid2
      · rw [if_pos h2, if_pos h2]
      · rw [if_neg h2, if_neg h2]
        exact ih

/-- C8 counterexample: resetting the existing session `"s1"` (created at
1, last seen at 5) at request time 10 clears the history and preserves
`createdAt`, but updates `lastSeen` to 10 — the middleware touches
`lastSeen` on every request, so the timestamps are not all preserved as
the claim states. -/
theorem claim_C8_reset_counterexample :
    storeGet (resetEndpoint [("s1", ⟨[⟨"user", "hi", 1⟩], 1, 5⟩)] (some "s1") "fresh" 10).1
        "s1" = some ⟨[], 1, 10⟩ ∧
    ¬ ((storeGet (resetEndpoint [("s1", ⟨[⟨"user", "hi", 1⟩], 1, 5⟩)] (some "s1") "fresh" 10).1
          "s1").map (fun s => s.lastSeen) =
        (storeGet [("s1", ⟨[⟨"user", "hi", 1⟩], 1, 5⟩)] "s1").map fun s => s.lastSeen) := by
  constructor
  · rfl
  · decide

/-- C8 (amended): for an existing session under a valid supplied id,
`reset` empties the history, preserves the session id and `createdAt`,
leaves every other session untouched, and answers `cleared: true`; the
session middleware updates `lastSeen` to the request time (it is not
preserved). -/
theorem claim_C8_reset_amended (store : List (String × SessionRec)) (sid fresh : String)
    (now : Nat) (s : SessionRec)
    (hvalid : ¬ (sid = "" ∨ 200 < sid.length))
    (hex : storeGet store sid = some s) :
    (resetEndpoint store (some sid) fresh now).2.1 = sid ∧
    (resetEndpoint store (some sid) fresh now).2.2 = true ∧
    storeGet (resetEndpoint store (some sid) fresh now).1 sid =
      some ⟨[], s.createdAt, now⟩ ∧
    ∀ sid2, sid2 ≠ sid →
      storeGet (resetEndpoint store (some sid) fresh now).1 sid2 = storeGet store sid2 := by
  have hs : middlewareSid (some sid) fresh = sid := by
    rw [middlewareSid, if_neg hvalid]
  have hmw : middlewareStore store sid now = storeSet store sid { s with lastSeen := now } := by
    rw [middlewareStore, hex]
  have hget : storeGet (middlewareStore store sid now) sid =
      some { s with lastSeen := now } := by
    rw [hmw]; exact storeGet_storeSet_self _ _ _
  have hre : resetEndpoint store (some sid) fresh now =
      (storeSet (middlewareStore store sid now) sid
         { { s with lastSeen := now } with history := [] }, sid, true) := by
    rw [resetEndpoint, hs, hget]
  refine ⟨by rw [hre], by rw [hre], ?_, ?_⟩
  · rw [hre]
    show storeGet (storeSet (middlewareStore store sid now) sid ⟨[], s.createdAt, now⟩) sid =
      some ⟨[], s.createdAt, now⟩
    exact storeGet_storeSet_self _ _ _
  · intro sid2 h2
    rw [hre]
    show storeGet (storeSet (middlewareStore store sid now) sid
        ⟨[], s.createdAt, now⟩) sid2 = storeGet store sid2
    rw [storeGet_storeSet_other _ _ _ _ h2, hmw, storeGet_storeSet_other _ _ _ _ h2]

/-- Witness for the amended C8 at a concrete store. -/
theorem claim_C8_reset_amended_witness :
    ¬ (("s1" : String) = "" ∨ 200 < ("s1" : String).length) ∧
    storeGet [("s1", (⟨[⟨"user", "hi", 1⟩], 1, 5⟩ : SessionRec))] "s1" =
      some ⟨[⟨"user", "hi", 1⟩], 1, 5⟩ ∧
    ((resetEndpoint [("s1", (⟨[⟨"user", "hi", 1⟩], 1, 5⟩ : SessionRec))] (some "s1") "fresh" 10).2.1 = "s1" ∧
     (resetEndpoint [("s1", (⟨[⟨"user", "hi", 1⟩], 1, 5⟩ : SessionRec))] (some "s1") "fresh" 10).2.2 = true ∧
     storeGet (resetEndpoint [("s1", (⟨[⟨"user", "hi", 1⟩], 1, 5⟩ : SessionRec))] (some "s1") "fresh" 10).1 "s1" =
       some ⟨[], (⟨[⟨"user", "hi", 1⟩], 1, 5⟩ : SessionRec).createdAt, 10⟩ ∧
     ∀ sid2, sid2 ≠ "s1" →
       storeGet (resetEndpoint [("s1", (⟨[⟨"user", "hi", 1⟩], 1, 5⟩ : SessionRec))] (some "s1") "fresh" 10).1 sid2 =
         storeGet [("s1", (⟨[⟨"user", "hi", 1⟩], 1, 5⟩ : SessionRec))] sid2) :=
  ⟨by decide, by decide,
   claim_C8_reset_amended [("s1", ⟨[⟨"user", "hi", 1⟩], 1, 5⟩)] "s1" "fresh" 10
     ⟨[⟨"user", "hi", 1⟩], 1, 5⟩ (by decide) (by decide)⟩

/- ===================== Request body values (/api/ask) ===================== -/

/-- A JavaScript value as it may appear in the request body fields
`question` / `message`. -/
inductive JSVal where
  | null
  | str (s : String)
  | num (n : Int)
  | boolean (b : Bool)
  | obj
deriving DecidableEq

/-- JavaScript `value.toString()` for the modeled value shapes (`num`
covers integral numbers, whose JavaScript string form matches `Int.repr`;
a plain object stringifies to `"[object Object]"`). -/
def JSVal.toStr : JSVal → String
  | .null => "null"
  | .str s => s
  | .num n => Int.repr n
  | .boolean true => "true"
  | .boolean false => "false"
  | .obj => "[object Object]"

/-- An optionally-present body field, normalized for `??`: `none` models
an absent property (undefined), and a present `null` is also skipped by
the nullish coalescing. -/
def jsNullish (v : Option JSVal) : Option JSVal :=
  match v with
  | some .null => none
  | x => x

/-- `req.body?.question ?? req.body?.message ?? ""`. -/
def coalesced (qF mF : Option JSVal) : JSVal :=
  match jsNullish qF with
  | some v => v
  | none =>
    match jsNullish mF with
    | some v => v
    | none => .str ""

/-- `const question = (req.body?.question ?? req.body?.message ?? "").toString()`. -/
def resolvedQuestion (qF mF : Option JSVal) : String :=
  (coalesced qF mF).toStr

/- ===================== The /api/ask handler (server.mjs) ===================== -/

/-- One chunk record of the persisted embedding index. -/
structure ChunkRec where
  id : Nat
  text_original : String
  text_cleaned : String
  embedding : List ℝ

/-- The error object thrown by a failed backend call, as read by the
`catch` block (`err?.status`, `err?.statusText`, `err?.message`,
`err?.name`). -/
structure JsErr where
  status : Option Nat
  statusText : Option String
  message : Option String
  name : Option String

/-- Which return statement of the `/api/ask` handler produced the
response. -/
inductive AskBranch where
  | badRequest
  | ultraShort
  | smalltalk
  | noEmbeddings
  | gated
  | answered
  | caught
deriving DecidableEq

/-- The observable effect of one `/api/ask` request: HTTP status, response
payload, the session history after the request, and whether the
generation backend was invoked. -/
structure AskOutcome where
  status : Nat
  answer : Option String
  errorMsg : Option String
  citations : List (Nat × ℝ)
  mode : Option String
  branch : AskBranch
  history : List Turn
  genCalled : Bool

/-- `err?.status || 500`: a missing or zero (falsy) status becomes 500. -/
def jsErrStatus (e : JsErr) : Nat :=
  match e.status with
  | some s => if s = 0 then 500 else s
  | none => 500

/-- `x || y` on an optional string: a missing or empty (falsy) `x` gives `y`. -/
def jsOrStr (a : Option String) (b : String) : String :=
  match a with
  | some s => if s = "" then b else s
  | none => b

/-- `err?.message || err?.statusText || "Generation failed"`. -/
def jsErrMsg (e : JsErr) : String :=
  jsOrStr e.message (jsOrStr e.statusText "Generation failed")

/-- The `catch` block of `/api/ask`: a server error carrying the
backend error status and message.  The session history at the moment of
the throw is left as it was. -/
def catchOutcome (e : JsErr) (hist : List Turn) (gen : Bool) : AskOutcome :=
  { status := jsErrStatus e, answer := none, errorMsg := some (jsErrMsg e),
    citations := [], mode := none, branch := .caught, history := hist,
    genCalled := gen }

/-- Score every index vector against the query embedding: the `.map`
step of retrieval. -/
noncomputable def scoreVectors (qVec : List ℝ) (vectors : List ChunkRec) :
    List (ChunkRec × ℝ) :=
  vectors.map fun v => (v, cosineSim qVec v.embedding)

/-- Decidability (classical) of the descending-score comparison used by
the sort. -/
noncomputable instance : DecidableRel (fun a b : ChunkRec × ℝ => b.2 ≤ a.2) :=
  fun a b => Real.decidableLE b.2 a.2

instance : IsTotal (ChunkRec × ℝ) (fun a b => b.2 ≤ a.2) :=
  ⟨fun a b => le_total b.2 a.2⟩

instance : IsTrans (ChunkRec × ℝ) (fun a b => b.2 ≤ a.2) :=
  ⟨fun _ _ _ hab hbc => le_trans hbc hab⟩

/-- The `.sort((a, b) => b.score - a.score)` step: sort by descending
score (tie order is irrelevant to every property stated here). -/
noncomputable def sortByScoreDesc (l : List (ChunkRec × ℝ)) : List (ChunkRec × ℝ) :=
  List.insertionSort (fun a b => b.2 ≤ a.2) l

/-- The retrieval of `/api/ask`: score, sort descending, `slice(0, TOP_K)`. -/
noncomputable def retrieveScored (qVec : List ℝ) (vectors : List ChunkRec) (topK : Nat) :
    List (ChunkRec × ℝ) :=
  (sortByScoreDesc (scoreVectors qVec vectors)).take topK

/-- `scored?.[0]?.score ?? 0`. -/
def headScoreOf : List (ChunkRec × ℝ) → ℝ
  | [] => 0
  | s :: _ => s.2

/-- `MIN_OK_SCORE` from `/api/ask`. -/
noncomputable def MIN_OK_SCORE : ℝ := 0.18

/-- The gated "no relevant context" tip, per language mode. -/
def gatedTip (mode : String) : String :=
  if mode = "hinglish" then
    "Is topic par knowledge base mein clear info nahi mil rahi. Thoda specific likhiye—jaise \x27Duke-Jia E+P flagship features\x27 ya \x27Highlead 269 application\x27."
  else
    "I couldn’t find clear context in the knowledge base for that. Try being more specific—for example, \x27Duke-Jia E+P flagship features\x27 or \x27Highlead 269 application\x27."

/-- The "embeddings not loaded" fallback, per language mode. -/
def noEmbeddingsMsg (mode : String) : String :=
  if mode = "hinglish" then
    "Embeddings load nahi hue. Pehle \x60npm run embed\x60 chalaa kar knowledge base taiyaar kijiye."
  else
    "Embeddings are not loaded. Please run \x60npm run embed\x60 to prepare the knowledge base."

/-- `scored.map((s, i) => ({ idx: i + 1, score: s.score }))`. -/
def citationsOf (scored : List (ChunkRec × ℝ)) : List (Nat × ℝ) :=
  scored.enum.map fun p => (p.1 + 1, p.2.2)

/-- `q.replace(/[\W_]+/g, "")`: only ASCII alphanumerics survive (the
strip also removes `_`, which `\W` alone would keep). -/
def alnumOnly (q : String) : List Char :=
  q.data.filter fun c =>
    (0x41 ≤ c.toNat && c.toNat ≤ 0x5a) || (0x61 ≤ c.toNat && c.toNat ≤ 0x7a) ||
    (0x30 ≤ c.toNat && c.toNat ≤ 0x39)

/-- `const q = question.trim()`. -/
def askQ (qF mF : Option JSVal) : String :=
  jsTrimStr (resolvedQuestion qF mF)

/-- The retrieval-and-generation tail of `/api/ask` (everything after the
small-talk short circuits): the query-embedding call and the generation
call are supplied as `Except` results; a `.error` models the awaited
promise throwing, which lands in the `catch` block.  The cleaned query
(`cleanForEmbedding(q) || q.toLowerCase()`) only feeds the embedding
backend and therefore only influences the supplied `embedRes`. -/
noncomputable def ragStage (q mode : String) (hist : List Turn) (vectors : List ChunkRec)
    (topK : Nat) (embedRes : Except JsErr (List ℝ)) (genRes : Except JsErr String)
    (now : Nat) : AskOutcome :=
  match embedRes with
  | .error e => catchOutcome e hist false
  | .ok qVec =>
    if (retrieveScored qVec vectors topK).length = 0 ∨
        headScoreOf (retrieveScored qVec vectors topK) < MIN_OK_SCORE then
      { status := 200, answer := some (gatedTip mode), errorMsg := none,
        citations := [], mode := some mode, branch := .gated,
        history := hist ++ [⟨"user", q, now⟩, ⟨"assistant", gatedTip mode, now⟩],
        genCalled := false }
    else
      match genRes with
      | .error e => catchOutcome e (hist ++ [⟨"user", q, now⟩]) true
      | .ok text =>
        { status := 200, answer := some text, errorMsg := none,
          citations := citationsOf (retrieveScored qVec vectors topK),
          mode := some mode, branch := .answered,
          history := hist ++ [⟨"user", q, now⟩, ⟨"assistant", text, now⟩],
          genCalled := true }

/-- The full `/api/ask` handler: validation, ultra-short guard, small
talk, missing-index fallback, then the retrieval stage. -/
noncomputable def askHandler (qF mF : Option JSVal) (hist : List Turn)
    (vectors : List ChunkRec) (topK : Nat) (embedRes : Except JsErr (List ℝ))
    (genRes : Except JsErr String) (hour rand now : Nat) : AskOutcome :=
  if resolvedQuestion qF mF = "" then
    { status := 400, answer := none,
      errorMsg := some "Missing \x27question\x27 (or \x27message\x27) string",
      citations := [], mode := none, branch := .badRequest, history := hist,
      genCalled := false }
  else if (alnumOnly (askQ qF mF)).length ≤ 3 then
    { status := 200,
      answer := some (makeSmallTalkReply "hello" (detectResponseMode (askQ qF mF)) hour rand),
      errorMsg := none, citations := [],
      mode := some (detectResponseMode (askQ qF mF)), branch := .ultraShort,
      history := hist ++ [⟨"user", askQ qF mF, now⟩,
        ⟨"assistant", makeSmallTalkReply "hello" (detectResponseMode (askQ qF mF)) hour rand, now⟩],
      genCalled := false }
  else
    match smallTalkMatch (askQ qF mF) with
    | some kind =>
      { status := 200,
        answer := some (makeSmallTalkReply kind (detectResponseMode (askQ qF mF)) hour rand),
        errorMsg := none, citations := [],
        mode := some (detectResponseMode (askQ qF mF)), branch := .smalltalk,
        history := hist ++ [⟨"user", askQ qF mF, now⟩,
          ⟨"assistant", makeSmallTalkReply kind (detectResponseMode (askQ qF mF)) hour rand, now⟩],
        genCalled := false }
    | none =>
      if vectors.length = 0 then
        { status := 500, answer := some (noEmbeddingsMsg (detectResponseMode (askQ qF mF))),
          errorMsg := none, citations := [],
          mode := some (detectResponseMode (askQ qF mF)), branch := .noEmbeddings,
          history := hist ++ [⟨"user", askQ qF mF, now⟩,
            ⟨"assistant", noEmbeddingsMsg (detectResponseMode (askQ qF mF)), now⟩],
          genCalled := false }
      else
        ragStage (askQ qF mF) (detectResponseMode (askQ qF mF)) hist vectors topK
          embedRes genRes now

/-- C7: whenever the alphanumeric-stripped input has length ≤ 3 (and
validation passed), the handler unconditionally returns the ultra-short
greeting branch — a canned greeting reply with empty citations, both turns
appended — before the intent patterns or retrieval are consulted.  In
particular `"hi!"` has alphanumeric length 2 and also matches the greeting
pattern, yet is resolved by the guard. -/
theorem claim_C7_ultra_short_guard :
    (∀ (qF mF : Option JSVal) (hist : List Turn) (vectors : List ChunkRec) (topK : Nat)
       (embedRes : Except JsErr (List ℝ)) (genRes : Except JsErr String)
       (hour rand now : Nat),
      resolvedQuestion qF mF ≠ "" →
      (alnumOnly (askQ qF mF)).length ≤ 3 →
      askHandler qF mF hist vectors topK embedRes genRes hour rand now =
        { status := 200,
          answer := some (makeSmallTalkReply "hello" (detectResponseMode (askQ qF mF)) hour rand),
          errorMsg := none, citations := [],
          mode := some (detectResponseMode (askQ qF mF)), branch := .ultraShort,
          history := hist ++ [⟨"user", askQ qF mF, now⟩,
            ⟨"assistant", makeSmallTalkReply "hello" (detectResponseMode (askQ qF mF)) hour rand, now⟩],
          genCalled := false }) ∧
    (alnumOnly (askQ (some (.str "hi!")) none)).length = 2 ∧
    smallTalkMatch (askQ (some (.str "hi!")) none) = some "hello" := by
  refine ⟨?_, by decide, by decide⟩
  intro qF mF hist vectors topK embedRes genRes hour rand now hq hg
  rw [askHandler, if_neg hq, if_pos hg]

/-- Witness for C7 at the concrete input `"hi!"`. -/
theorem claim_C7_ultra_short_guard_witness :
    resolvedQuestion (some (.str "hi!")) none ≠ "" ∧
    (alnumOnly (askQ (some (.str "hi!")) none)).length ≤ 3 ∧
    askHandler (some (.str "hi!")) none [] [] 6 (.ok []) (.ok "") 12 0 7 =
      { status := 200,
        answer := some (makeSmallTalkReply "hello"
          (detectResponseMode (askQ (some (.str "hi!")) none)) 12 0),
        errorMsg := none, citations := [],
        mode := some (detectResponseMode (askQ (some (.str "hi!")) none)),
        branch := .ultraShort,
        history := [⟨"user", askQ (some (.str "hi!")) none, 7⟩,
          ⟨"assistant", makeSmallTalkReply "hello"
            (detectResponseMode (askQ (some (.str "hi!")) none)) 12 0, 7⟩],
        genCalled := false } :=
  ⟨by decide, by decide,
   claim_C7_ultra_short_guard.1 (some (.str "hi!")) none [] [] 6 (.ok []) (.ok "") 12 0 7
     (by decide) (by decide)⟩

/-- C1: for every request on the retrieval path (validation passed, guard
and small talk not taken, index nonempty), retrieval returns at most
`TOP_K` scored chunks, sorted by non-increasing score; and whenever the
result is empty or its top score is below `MIN_OK_SCORE = 0.18`, no
generation call is made and the fixed language-mode-appropriate
"no relevant context" tip is returned with empty citations, with both the
user turn and the tip appended to the session history. -/
theorem claim_C1_retrieval_and_gate
    (qF mF : Option JSVal) (hist : List Turn) (vectors : List ChunkRec) (topK : Nat)
    (qVec : List ℝ) (genRes : Except JsErr String) (hour rand now : Nat)
    (hq : resolvedQuestion qF mF ≠ "")
    (hguard : ¬ (alnumOnly (askQ qF mF)).length ≤ 3)
    (hst : smallTalkMatch (askQ qF mF) = none)
    (hv : ¬ vectors.length = 0) :
    (retrieveScored qVec vectors topK).length ≤ topK ∧
    List.Sorted (fun a b : ChunkRec × ℝ => b.2 ≤ a.2) (retrieveScored qVec vectors topK) ∧
    ((retrieveScored qVec vectors topK).length = 0 ∨
        headScoreOf (retrieveScored qVec vectors topK) < MIN_OK_SCORE →
      askHandler qF mF hist vectors topK (.ok qVec) genRes hour rand now =
        { status := 200, answer := some (gatedTip (detectResponseMode (askQ qF mF))),
          errorMsg := none, citations := [],
          mode := some (detectResponseMode (askQ qF mF)), branch := .gated,
          history := hist ++ [⟨"user", askQ qF mF, now⟩,
            ⟨"assistant", gatedTip (detectResponseMode (askQ qF mF)), now⟩],
          genCalled := false }) := by
  refine ⟨?_, ?_, ?_⟩
  · rw [retrieveScored, List.length_take]
    exact min_le_left _ _
  · exact List.Pairwise.sublist (List.take_sublist _ _)
      (List.sorted_insertionSort (fun a b : ChunkRec × ℝ => b.2 ≤ a.2) _)
  · intro hgate
    rw [askHandler, if_neg hq, if_neg hguard]
    simp only [hst]
    rw [if_neg hv]
    simp only [ragStage]
    rw [if_pos hgate]

theorem cosineSim_zero_single : cosineSim [(0:ℝ)] [(0:ℝ)] = 0 := by
  have hd : truncDot [(0:ℝ)] [(0:ℝ)] = 0 := by
    rw [truncDot]; simp
  have h1 : sqNormL [(0:ℝ)] = 0 := by
    rw [sqNormL_cons, sqNormL_nil]; ring
  have hp : truncNormProd [(0:ℝ)] [(0:ℝ)] = 0 := by
    rw [truncNormProd]
    simp [h1]
  rw [cosineSim, hd, hp]
  simp

theorem retrieveScored_zero_single :
    retrieveScored [(0:ℝ)] [⟨0, "c", "c", [(0:ℝ)]⟩] 6 =
      [(⟨0, "c", "c", [(0:ℝ)]⟩, 0)] := by
  rw [retrieveScored, scoreVectors]
  simp only [List.map_cons, List.map_nil, cosineSim_zero_single]
  rw [sortByScoreDesc]
  simp [List.insertionSort, List.orderedInsert]

/-- Witness for C1: a concrete request whose single indexed chunk scores
0 < 0.18 and is therefore gated. -/
theorem claim_C1_retrieval_and_gate_witness :
    resolvedQuestion (some (.str "duke flagship features")) none ≠ "" ∧
    ¬ (alnumOnly (askQ (some (.str "duke flagship features")) none)).length ≤ 3 ∧
    smallTalkMatch (askQ (some (.str "duke flagship features")) none) = none ∧
    ¬ ([(⟨0, "c", "c", [(0:ℝ)]⟩ : ChunkRec)].length = 0) ∧
    askHandler (some (.str "duke flagship features")) none [] [⟨0, "c", "c", [(0:ℝ)]⟩] 6
        (.ok [(0:ℝ)]) (.ok "unused") 12 0 3 =
      { status := 200,
        answer := some (gatedTip (detectResponseMode
          (askQ (some (.str "duke flagship features")) none))),
        errorMsg := none, citations := [],
        mode := some (detectResponseMode (askQ (some (.str "duke flagship features")) none)),
        branch := .gated,
        history := [⟨"user", askQ (some (.str "duke flagship features")) none, 3⟩,
          ⟨"assistant", gatedTip (detectResponseMode
            (askQ (some (.str "duke flagship features")) none)), 3⟩],
        genCalled := false } := by
  refine ⟨by decide, by decide, by decide, by decide, ?_⟩
  refine (claim_C1_retrieval_and_gate (some (.str "duke flagship features")) none []
    [⟨0, "c", "c", [(0:ℝ)]⟩] 6 [(0:ℝ)] (.ok "unused") 12 0 3
    (by decide) (by decide) (by decide) (by decide)).2.2 ?_
  refine Or.inr ?_
  rw [retrieveScored_zero_single]
  show (0:ℝ) < MIN_OK_SCORE
  rw [MIN_OK_SCORE]
  norm_num

theorem cosineSim_one_single : cosineSim [(1:ℝ)] [(1:ℝ)] = 1 := by
  have hd : truncDot [(1:ℝ)] [(1:ℝ)] = 1 := by
    rw [truncDot]; simp
  have h1 : sqNormL [(1:ℝ)] = 1 := by
    rw [sqNormL_cons, sqNormL_nil]; ring
  have hp : truncNormProd [(1:ℝ)] [(1:ℝ)] = 1 := by
    rw [truncNormProd]
    simp [h1]
  rw [cosineSim, hd, hp, if_neg one_ne_zero]
  norm_num

theorem retrieveScored_one_single :
    retrieveScored [(1:ℝ)] [⟨0, "c", "c", [(1:ℝ)]⟩] 6 =
      [(⟨0, "c", "c", [(1:ℝ)]⟩, 1)] := by
  rw [retrieveScored, scoreVectors]
  simp only [List.map_cons, List.map_nil, cosineSim_one_single]
  rw [sortByScoreDesc]
  simp [List.insertionSort, List.orderedInsert]

theorem not_gated_one_single :
    ¬ ((retrieveScored [(1:ℝ)] [⟨0, "c", "c", [(1:ℝ)]⟩] 6).length = 0 ∨
       headScoreOf (retrieveScored [(1:ℝ)] [⟨0, "c", "c", [(1:ℝ)]⟩] 6) < MIN_OK_SCORE) := by
  rw [retrieveScored_one_single]
  rintro (h | h)
  · simp at h
  · rw [MIN_OK_SCORE] at h
    have : ¬ ((1:ℝ) < 0.18) := by norm_num
    exact this h

/-- C3 counterexample: a request that reaches the generation call, whose
generation backend throws.  The claim says the session history is left
without the failed turn (unchanged); the handler, however, pushes the
user turn before awaiting the generation call, so the failed request
leaves the user turn appended to the history. -/
theorem claim_C3_counterexample :
    (askHandler (some (.str "duke flagship features")) none []
        [⟨0, "c", "c", [(1:ℝ)]⟩] 6 (.ok [(1:ℝ)])
        (.error ⟨some 503, some "Service Unavailable", some "backend down",
          some "FetchError"⟩) 12 0 9).history =
      [⟨"user", "duke flagship features", 9⟩] ∧
    [(⟨"user", "duke flagship features", 9⟩ : Turn)] ≠ ([] : List Turn) := by
  constructor
  · rw [askHandler, if_neg (by decide), if_neg (by decide)]
    simp only [show smallTalkMatch (askQ (some (.str "duke flagship features")) none) =
      none from by decide]
    rw [if_neg (by decide)]
    simp only [ragStage]
    rw [if_neg not_gated_one_single]
    rfl
  · decide

/-- C3 (amended): on the retrieval path, a throwing backend call is
surfaced as a server error carrying the backend status and message, with
no retry; an embedding failure leaves the session history unchanged and
makes no generation call, while a generation failure leaves the user turn
appended (the handler pushes it before awaiting generation). -/
theorem claim_C3_backend_failure_amended
    (qF mF : Option JSVal) (hist : List Turn) (vectors : List ChunkRec) (topK : Nat)
    (hour rand now : Nat)
    (hq : resolvedQuestion qF mF ≠ "")
    (hguard : ¬ (alnumOnly (askQ qF mF)).length ≤ 3)
    (hst : smallTalkMatch (askQ qF mF) = none)
    (hv : ¬ vectors.length = 0) :
    (∀ (e : JsErr) (genRes : Except JsErr String),
      askHandler qF mF hist vectors topK (.error e) genRes hour rand now =
        { status := jsErrStatus e, answer := none, errorMsg := some (jsErrMsg e),
          citations := [], mode := none, branch := .caught, history := hist,
          genCalled := false }) ∧
    (∀ (qVec : List ℝ) (e : JsErr),
      ¬ ((retrieveScored qVec vectors topK).length = 0 ∨
         headScoreOf (retrieveScored qVec vectors topK) < MIN_OK_SCORE) →
      askHandler qF mF hist vectors topK (.ok qVec) (.error e) hour rand now =
        { status := jsErrStatus e, answer := none, errorMsg := some (jsErrMsg e),
          citations := [], mode := none, branch := .caught,
          history := hist ++ [⟨"user", askQ qF mF, now⟩], genCalled := true }) := by
  constructor
  · intro e genRes
    rw [askHandler, if_neg hq, if_neg hguard]
    simp only [hst]
    rw [if_neg hv]
    simp only [ragStage]
    rfl
  · intro qVec e hgate
    rw [askHandler, if_neg hq, if_neg hguard]
    simp only [hst]
    rw [if_neg hv]
    simp only [ragStage]
    rw [if_neg hgate]
    rfl

/-- Witness for the amended C3: a concrete embedding failure is surfaced
with the backend status and message and the history stays empty. -/
theorem claim_C3_backend_failure_amended_witness :
    resolvedQuestion (some (.str "duke flagship features")) none ≠ "" ∧
    ¬ (alnumOnly (askQ (some (.str "duke flagship features")) none)).length ≤ 3 ∧
    smallTalkMatch (askQ (some (.str "duke flagship features")) none) = none ∧
    ¬ ([(⟨0, "c", "c", [(0:ℝ)]⟩ : ChunkRec)].length = 0) ∧
    askHandler (some (.str "duke flagship features")) none [] [⟨0, "c", "c", [(0:ℝ)]⟩] 6
        (.error ⟨some 429, none, some "quota exceeded", none⟩) (.ok "x") 12 0 9 =
      { status := jsErrStatus ⟨some 429, none, some "quota exceeded", none⟩,
        answer := none,
        errorMsg := some (jsErrMsg ⟨some 429, none, some "quota exceeded", none⟩),
        citations := [], mode := none, branch := .caught, history := [],
        genCalled := false } :=
  ⟨by decide, by decide, by decide, by decide,
   (claim_C3_backend_failure_amended (some (.str "duke flagship features")) none []
      [⟨0, "c", "c", [(0:ℝ)]⟩] 6 12 0 9 (by decide) (by decide) (by decide) (by decide)).1
     ⟨some 429, none, some "quota exceeded", none⟩ (.ok "x")⟩

theorem toDigitsCore_length_le (b : Nat) :
    ∀ (fuel n : Nat) (acc : List Char),
      acc.length ≤ (Nat.toDigitsCore b fuel n acc).length := by
  intro fuel
  induction fuel with
  | zero => intro n acc; simp [Nat.toDigitsCore]
  | succ f ih =>
    intro n acc
    simp only [Nat.toDigitsCore]
    by_cases h : n / b = 0
    · rw [if_pos h]
      simp
    · rw [if_neg h]
      exact le_trans (Nat.le_succ _) (ih (n / b) (Nat.digitChar (n % b) :: acc))

theorem natRepr_ne_empty (n : Nat) : Nat.repr n ≠ "" := by
  have h1 : 1 ≤ (Nat.toDigits 10 n).length := by
    rw [Nat.toDigits]
    simp only [Nat.toDigitsCore]
    by_cases h : n / 10 = 0
    · rw [if_pos h]
      simp
    · rw [if_neg h]
      have := toDigitsCore_length_le 10 n (n / 10) [Nat.digitChar (n % 10)]
      simpa using this
  intro hcon
  have h2 : Nat.toDigits 10 n = [] := by
    have := congrArg String.data hcon
    simpa [Nat.repr] using this
  rw [h2] at h1
  simp at h1

theorem intRepr_ne_empty (n : Int) : Int.repr n ≠ "" := by
  cases n with
  | ofNat m =>
    show Nat.repr m ≠ ""
    exact natRepr_ne_empty m
  | negSucc m =>
    intro h
    have := congrArg String.data h
    simp [Int.repr] at this

/-- Modelled from the claim C9 wording: a body field that is "absent or
coerces to the empty string". -/
def fieldAbsentOrEmpty : Option JSVal → Bool
  | none => true
  | some v => v.toStr == ""

/-- C9 counterexample: with `question: ""` and `message: "hello"`, the
fields are not both absent-or-empty (the message coerces to `"hello"`),
yet the handler rejects with the 400 branch — the nullish coalescing
keeps the present empty-string `question` and never consults `message`. -/
theorem claim_C9_counterexample :
    (askHandler (some (.str "")) (some (.str "hello")) [] [] 6 (.ok []) (.ok "")
        0 0 0).branch = .badRequest ∧
    (askHandler (some (.str "")) (some (.str "hello")) [] [] 6 (.ok []) (.ok "")
        0 0 0).status = 400 ∧
    (fieldAbsentOrEmpty (some (.str "")) && fieldAbsentOrEmpty (some (.str "hello"))) =
      false := by
  refine ⟨rfl, rfl, by decide⟩

/-- C9 (amended): the handler rejects with the 400 branch exactly when
the nullish-coalesced `question ?? message ?? ""` value converts (via
`toString`) to the empty string; because the value is converted before
the check, the `typeof` branch is unreachable and any present non-null
non-string value (a number, an object) is coerced to its nonempty string
form and processed rather than rejected. -/
theorem claim_C9_validation_amended :
    (∀ (qF mF : Option JSVal) (hist : List Turn) (vectors : List ChunkRec) (topK : Nat)
       (embedRes : Except JsErr (List ℝ)) (genRes : Except JsErr String)
       (hour rand now : Nat),
      (askHandler qF mF hist vectors topK embedRes genRes hour rand now).branch =
          .badRequest ↔ resolvedQuestion qF mF = "") ∧
    (∀ (qF mF : Option JSVal) (hist : List Turn) (vectors : List ChunkRec) (topK : Nat)
       (embedRes : Except JsErr (List ℝ)) (genRes : Except JsErr String)
       (hour rand now : Nat),
      resolvedQuestion qF mF = "" →
      (askHandler qF mF hist vectors topK embedRes genRes hour rand now).status = 400 ∧
      (askHandler qF mF hist vectors topK embedRes genRes hour rand now).history = hist ∧
      (askHandler qF mF hist vectors topK embedRes genRes hour rand now).genCalled = false) ∧
    (∀ n : Int, JSVal.toStr (.num n) ≠ "") ∧
    JSVal.toStr .obj ≠ "" ∧
    (∀ (n : Int) (mF : Option JSVal), resolvedQuestion (some (.num n)) mF ≠ "") := by
  have hbr : ∀ (qF mF : Option JSVal) (hist : List Turn) (vectors : List ChunkRec)
      (topK : Nat) (embedRes : Except JsErr (List ℝ)) (genRes : Except JsErr String)
      (hour rand now : Nat), resolvedQuestion qF mF ≠ "" →
      (askHandler qF mF hist vectors topK embedRes genRes hour rand now).branch ≠
        .badRequest := by
    intro qF mF hist vectors topK embedRes genRes hour rand now hq
    rw [askHandler, if_neg hq]
    by_cases hg : (alnumOnly (askQ qF mF)).length ≤ 3
    · rw [if_pos hg]
      simp
    · rw [if_neg hg]
      rcases hm : smallTalkMatch (askQ qF mF) with _ | kind
      · simp only [hm]
        by_cases hv : vectors.length = 0
        · rw [if_pos hv]
          simp
        · rw [if_neg hv]
          rcases embedRes with e | qVec
          · simp only [ragStage]
            simp [catchOutcome]
          · simp only [ragStage]
            by_cases hgate : (retrieveScored qVec vectors topK).length = 0 ∨
                headScoreOf (retrieveScored qVec vectors topK) < MIN_OK_SCORE
            · rw [if_pos hgate]
              simp
            · rw [if_neg hgate]
              rcases genRes with e | text
              · simp [catchOutcome]
              · simp
      · simp only [hm]
        simp
  refine ⟨?_, ?_, intRepr_ne_empty, by decide, ?_⟩
  · intro qF mF hist vectors topK embedRes genRes hour rand now
    constructor
    · intro hb
      by_contra hq
      exact hbr qF mF hist vectors topK embedRes genRes hour rand now hq hb
    · intro hq
      rw [askHandler, if_pos hq]
  · intro qF mF hist vectors topK embedRes genRes hour rand now hq
    rw [askHandler, if_pos hq]
    exact ⟨rfl, rfl, rfl⟩
  · intro n mF
    show JSVal.toStr (.num n) ≠ ""
    exact intRepr_ne_empty n

/-- Witness for the amended C9: a numeric `question` field is coerced to
`"5"` and not rejected. -/
theorem claim_C9_validation_amended_witness :
    resolvedQuestion (some (.num 5)) none ≠ "" ∧
    ((askHandler (some (.num 5)) none [] [] 6 (.ok []) (.ok "") 0 0 0).branch =
        .badRequest ↔ resolvedQuestion (some (.num 5)) none = "") ∧
    JSVal.toStr (.num 5) ≠ "" :=
  ⟨claim_C9_validation_amended.2.2.2.2 5 none,
   claim_C9_validation_amended.1 (some (.num 5)) none [] [] 6 (.ok []) (.ok "") 0 0 0,
   claim_C9_validation_amended.2.2.1 5⟩
